import Mathlib

/-!
Verification of the interactive SSH session protocol engine
(`sshkernel/ssh_wrapper_paramiko.py`).

The Python source is shallowly embedded below:

* the two prompt-recognition regular expressions (source lines 164 and 263)
  become the executable matcher `promptSearch` (parameterized by whether the
  trailing `(pending changes)` branch is present);
* `_read_until_prompt` becomes the fuel-indexed reader `rupFuel` over a
  scripted transport, with time measured in poll intervals (0.1 s units);
* `exec_command` / `test_completion` / `_ensure_clean_prompt` become
  script-driven state functions over a channel state `St`;
* the completion pipeline (`get_completions`, `_get_completions`,
  `_get_completions_question_mark`, `_get_completions_cli_command`) is
  embedded the same way;
* the session lifecycle (`connect` / `close` / `interrupt`) becomes a
  transition system on a session record with a ghost list of open channels.

Python string primitives (`strip`, `lower`, `split`, `splitlines`,
`startswith`, `endswith`, `in`) are modeled for ASCII text, which covers
every literal the source manipulates.
-/

/-! ### Character classes (ASCII models of the regex classes) -/

/-- Membership in the regex class `[a-zA-Z0-9\-_]`. -/
def isIdentChar (c : Char) : Bool :=
  c.isAlpha || c.isDigit || c = '-' || c = '_'

/-- Membership in the regex class `\d`. -/
def isDigitChar (c : Char) : Bool := c.isDigit

/-- Membership in the regex class `\s` (ASCII part). -/
def isSpaceChar (c : Char) : Bool :=
  c = ' ' || c = '\t' || c = '\n' || c = '\r' || c = '\x0b' || c = '\x0c'

/-- Prompt sigil: the regex class `[%>#]`. -/
def isSigil (c : Char) : Bool := c = '%' || c = '>' || c = '#'

/-- Every character of the list is whitespace. -/
def allSpace (cs : List Char) : Bool := cs.all isSpaceChar

/-! ### Python string primitives -/

/-- Python `str.strip()` on ASCII text: drop leading and trailing whitespace. -/
def pyStripL (cs : List Char) : List Char :=
  ((cs.dropWhile isSpaceChar).reverse.dropWhile isSpaceChar).reverse

/-- Python `str.strip()` lifted to `String`. -/
def pyStrip (s : String) : String := ⟨pyStripL s.data⟩

/-- Python `str.lower()` on ASCII text. -/
def pyLower (s : String) : String := ⟨s.data.map Char.toLower⟩

/-- Python `str.split('\n')`: split at every newline; never empty. -/
def splitNL : List Char → List (List Char)
  | [] => [[]]
  | c :: cs =>
    if c = '\n' then [] :: splitNL cs
    else
      match splitNL cs with
      | [] => [[c]]
      | l :: ls => (c :: l) :: ls

/-- Python `'\n'.join`: the inverse of `splitNL` on newline-free pieces. -/
def joinNL : List (List Char) → List Char
  | [] => []
  | [l] => l
  | l :: ls => l ++ '\n' :: joinNL ls

/-- Python `output.split('\n')` lifted to `String`. -/
def pySplitNL (s : String) : List String := (splitNL s.data).map String.mk

/-- Join a list of newline-free lines with newlines, on `String`. -/
def joinLinesS (ls : List String) : String := ⟨joinNL (ls.map String.data)⟩

/-! ### The prompt matcher

The reader regex (source line 164) is
`(?:\{master:\d+\})?(?:\[edit[^\]]*\])?[a-zA-Z0-9\-_]+@[a-zA-Z0-9\-_]+[%>#](?:\s+\(pending changes\))?\s*$`
and the variant used on the last output line in `exec_command`
(source line 263) is the same pattern without the `(pending changes)`
branch.  `matchCore annot cs` decides whether the whole list `cs` is in the
language of the pattern (with the `(pending changes)` branch present iff
`annot = true`); `promptSearch` adds the `re.search` semantics, i.e. the
existential over the start position, which with the `$` anchor is an
existential over suffixes. -/

/-- Consume an exact literal prefix. -/
def dropLit : List Char → List Char → Option (List Char)
  | [], cs => some cs
  | _ :: _, [] => none
  | l :: ls, c :: cs => if c = l then dropLit ls cs else none

/-- Consume the optional group `\{master:\d+\}`. -/
def dropMaster (cs : List Char) : Option (List Char) :=
  match dropLit ("\x7bmaster:".data) cs with
  | none => none
  | some r =>
    if (r.takeWhile isDigitChar).isEmpty then none
    else
      match r.dropWhile isDigitChar with
      | '\x7d' :: r2 => some r2
      | _ => none

/-- Consume the optional group `\[edit[^\]]*\]`. -/
def dropEdit (cs : List Char) : Option (List Char) :=
  match dropLit ("[edit".data) cs with
  | none => none
  | some r =>
    match r.dropWhile (fun c => !(c = ']')) with
    | ']' :: r2 => some r2
    | _ => none

/-- Consume a nonempty run of identifier characters, `[a-zA-Z0-9\-_]+`. -/
def dropIdent (cs : List Char) : Option (List Char) :=
  if (cs.takeWhile isIdentChar).isEmpty then none
  else some (cs.dropWhile isIdentChar)

/-- Decide the tail `(?:\s+\(pending changes\))?\s*` against the whole list. -/
def matchAnnotTail (cs : List Char) : Bool :=
  allSpace cs ||
    (!(cs.takeWhile isSpaceChar).isEmpty &&
      match dropLit ("(pending changes)".data) (cs.dropWhile isSpaceChar) with
      | some r => allSpace r
      | none => false)

/-- Tail after the sigil: with or without the `(pending changes)` branch. -/
def matchSigilTail (annot : Bool) (cs : List Char) : Bool :=
  if annot then matchAnnotTail cs else allSpace cs

/-- Decide `[a-zA-Z0-9\-_]+@[a-zA-Z0-9\-_]+[%>#]` followed by the tail. -/
def matchFromIdent (annot : Bool) (cs : List Char) : Bool :=
  match dropIdent cs with
  | none => false
  | some r =>
    match r with
    | '@' :: r2 =>
      match dropIdent r2 with
      | none => false
      | some r3 =>
        match r3 with
        | c :: r4 => isSigil c && matchSigilTail annot r4
        | [] => false
    | _ => false

/-- Decide the pattern from the optional `[edit…]` group onwards. -/
def matchFromEdit (annot : Bool) (cs : List Char) : Bool :=
  (match dropEdit cs with
   | some r => matchFromIdent annot r
   | none => false) ||
  matchFromIdent annot cs

/-- Decide whether the whole list is in the language of the prompt pattern. -/
def matchCore (annot : Bool) (cs : List Char) : Bool :=
  (match dropMaster cs with
   | some r => matchFromEdit annot r
   | none => false) ||
  matchFromEdit annot cs

/-- Model of `re.search(pattern + anchored tail, s)`: some suffix of `s`
is in the pattern's language. -/
def promptSearch (annot : Bool) (s : String) : Bool :=
  s.data.tails.any (matchCore annot)

/-- The terminating-prompt predicate of `_read_until_prompt` (line 164). -/
def isTerminatingPrompt (s : String) : Bool := promptSearch true s

/-- The prompt predicate used on the last line in `exec_command` (line 263). -/
def execPromptMatch (s : String) : Bool := promptSearch false s

example : isTerminatingPrompt "user@host> " = true := by decide
example : isTerminatingPrompt "\x7bmaster:0\x7duser@host% " = true := by decide
example : isTerminatingPrompt "[edit interfaces]user@host# " = true := by decide
example : isTerminatingPrompt "user@host# (pending changes)" = true := by decide
example : execPromptMatch "user@host# (pending changes)" = false := by decide
example : isTerminatingPrompt "@host> " = false := by decide
example : isTerminatingPrompt "u@host> " = true := by decide
example : isTerminatingPrompt "plain text" = false := by decide

/-! ### The documented prompt grammar (spec side)

The spec (section 3, "Prompt Pattern") documents a terminating prompt as
`{optional bracketed mode marker}{optional hierarchy marker}{identifier}@{identifier}{one of % > #}{optional trailing annotation}{optional trailing whitespace}`
anchored at the end of the buffer.  The concrete character classes are the
ones the source's pattern fixes. -/

/-- Bracketed mode marker `{master:N}`. -/
def IsModeMarker (cs : List Char) : Prop :=
  ∃ ds, ds ≠ [] ∧ (∀ c ∈ ds, isDigitChar c = true) ∧
    cs = ("\x7bmaster:".data) ++ ds ++ ['\x7d']

/-- Hierarchy marker `[edit …]` with no closing bracket inside. -/
def IsHierMarker (cs : List Char) : Prop :=
  ∃ body, (∀ c ∈ body, c ≠ ']') ∧ cs = ("[edit".data) ++ body ++ [']']

/-- Identifier: a nonempty run of `[a-zA-Z0-9\-_]` characters. -/
def IsIdent (cs : List Char) : Prop :=
  cs ≠ [] ∧ ∀ c ∈ cs, isIdentChar c = true

/-- Trailing `(pending changes)` marker preceded by mandatory whitespace. -/
def IsPendingNote (cs : List Char) : Prop :=
  ∃ sp, sp ≠ [] ∧ (∀ c ∈ sp, isSpaceChar c = true) ∧
    cs = sp ++ ("(pending changes)".data)

/-- The documented grammar of one whole prompt occurrence; the trailing
note alternative is present exactly when `annot = true`. -/
def PromptGrammar (annot : Bool) (cs : List Char) : Prop :=
  ∃ m e u h sg a w,
    (m = [] ∨ IsModeMarker m) ∧
    (e = [] ∨ IsHierMarker e) ∧
    IsIdent u ∧ IsIdent h ∧
    (sg = '%' ∨ sg = '>' ∨ sg = '#') ∧
    (if annot then (a = [] ∨ IsPendingNote a) else a = []) ∧
    (∀ c ∈ w, isSpaceChar c = true) ∧
    cs = m ++ e ++ u ++ '@' :: (h ++ sg :: (a ++ w))

/-- The buffer's tail matches the grammar, anchored at the end. -/
def TailMatchesPrompt (annot : Bool) (cs : List Char) : Prop :=
  ∃ p t, cs = p ++ t ∧ PromptGrammar annot t

/-! ### Small list lemmas used by the equivalence proof -/

theorem dropLit_eq_some_iff {lit cs r : List Char} :
    dropLit lit cs = some r ↔ cs = lit ++ r := by
  induction lit generalizing cs with
  | nil => simp [dropLit, eq_comm]
  | cons l ls ih =>
    cases cs with
    | nil => simp [dropLit]
    | cons c cs' =>
      by_cases hc : c = l
      · subst hc; simp [dropLit, ih]
      · simp [dropLit, hc]

theorem mem_takeWhile_pred {p : Char → Bool} :
    ∀ {l : List Char} {c : Char}, c ∈ l.takeWhile p → p c = true := by
  intro l
  induction l with
  | nil => intro c h; simp [List.takeWhile] at h
  | cons a l ih =>
    intro c h
    rw [List.takeWhile_cons] at h
    by_cases ha : p a = true
    · simp [ha] at h
      rcases h with h | h
      · subst h; exact ha
      · exact ih h
    · simp [Bool.not_eq_true] at ha
      simp [ha] at h

theorem head_dropWhile_not {p : Char → Bool} :
    ∀ {l : List Char} {c : Char}, (l.dropWhile p).head? = some c → p c = false := by
  intro l
  induction l with
  | nil => intro c h; simp [List.dropWhile] at h
  | cons a l ih =>
    intro c h
    rw [List.dropWhile_cons] at h
    by_cases ha : p a = true
    · simp [ha] at h; exact ih h
    · simp [Bool.not_eq_true] at ha
      simp [ha] at h
      subst h; exact ha

theorem takeWhile_append_all (p : Char → Bool) (u rest : List Char)
    (hu : ∀ c ∈ u, p c = true)
    (hr : ∀ c, rest.head? = some c → p c = false) :
    (u ++ rest).takeWhile p = u ∧ (u ++ rest).dropWhile p = rest := by
  induction u with
  | nil =>
    cases rest with
    | nil => simp
    | cons c r =>
      have := hr c rfl
      simp [List.takeWhile_cons, List.dropWhile_cons, this]
  | cons a u ih =>
    have ha : p a = true := hu a (by simp)
    have ⟨h1, h2⟩ := ih (fun c hc => hu c (by simp [hc]))
    simp [List.takeWhile_cons, List.dropWhile_cons, ha, h1, h2]

/-! ### Characterizations of the matcher pieces -/

theorem dropIdent_sound {cs r : List Char} (h : dropIdent cs = some r) :
    ∃ u, IsIdent u ∧ cs = u ++ r ∧
      (∀ c, r.head? = some c → isIdentChar c = false) := by
  unfold dropIdent at h
  by_cases he : (cs.takeWhile isIdentChar).isEmpty
  · simp [he] at h
  · simp [he] at h
    refine ⟨cs.takeWhile isIdentChar, ⟨?_, fun c hc => mem_takeWhile_pred hc⟩, ?_, ?_⟩
    · intro hnil; rw [hnil] at he; simp at he
    · rw [← h]; exact (List.takeWhile_append_dropWhile ..).symm
    · intro c hc; rw [← h] at hc; exact head_dropWhile_not hc

theorem dropIdent_complete {u rest : List Char} (hu : IsIdent u)
    (hr : ∀ c, rest.head? = some c → isIdentChar c = false) :
    dropIdent (u ++ rest) = some rest := by
  obtain ⟨h1, h2⟩ := takeWhile_append_all _ _ _ hu.2 hr
  unfold dropIdent
  rcases hu with ⟨hne, _⟩
  simp [h1, h2, hne]

theorem dropMaster_sound {cs r : List Char} (h : dropMaster cs = some r) :
    ∃ m, IsModeMarker m ∧ cs = m ++ r := by
  unfold dropMaster at h
  split at h
  next => exact absurd h (by simp)
  next r0 hlit =>
    have hcs : cs = ("\x7bmaster:".data) ++ r0 := dropLit_eq_some_iff.mp hlit
    split at h
    next => exact absurd h (by simp)
    next he =>
      split at h
      next r2 hdw =>
        have hr : r2 = r := by simpa using h
        subst hr
        refine ⟨("\x7bmaster:".data) ++ r0.takeWhile isDigitChar ++ ['\x7d'],
          ⟨r0.takeWhile isDigitChar, ?_, fun c hc => mem_takeWhile_pred hc, rfl⟩, ?_⟩
        · intro hnil; rw [hnil] at he; simp at he
        · have hsplit : r0 = r0.takeWhile isDigitChar ++ ('\x7d' :: r2) := by
            rw [← hdw]; exact (List.takeWhile_append_dropWhile ..).symm
          conv_lhs => rw [hcs, hsplit]
          simp
      next hne => exact absurd h (by simp)

theorem dropMaster_complete {ds r : List Char} (hne : ds ≠ [])
    (hds : ∀ c ∈ ds, isDigitChar c = true) :
    dropMaster (("\x7bmaster:".data) ++ ds ++ '\x7d' :: r) = some r := by
  unfold dropMaster
  have hlit : dropLit ("\x7bmaster:".data)
      (("\x7bmaster:".data) ++ ds ++ '\x7d' :: r) = some (ds ++ '\x7d' :: r) := by
    rw [dropLit_eq_some_iff]; simp
  rw [hlit]
  have hhd : ∀ c, ('\x7d' :: r).head?= some c → isDigitChar c = false := by
    intro c hc; simp at hc; subst hc; decide
  have h12 := takeWhile_append_all isDigitChar ds ('\x7d' :: r) hds hhd
  simp [h12.1, h12.2, hne]

theorem dropEdit_sound {cs r : List Char} (h : dropEdit cs = some r) :
    ∃ m, IsHierMarker m ∧ cs = m ++ r := by
  unfold dropEdit at h
  split at h
  next => exact absurd h (by simp)
  next r0 hlit =>
    have hcs : cs = ("[edit".data) ++ r0 := dropLit_eq_some_iff.mp hlit
    split at h
    next r2 hdw =>
      have hr : r2 = r := by simpa using h
      subst hr
      refine ⟨("[edit".data) ++ r0.takeWhile (fun c => !(c = ']')) ++ [']'],
        ⟨r0.takeWhile (fun c => !(c = ']')), ?_, rfl⟩, ?_⟩
      · intro c hc
        have := mem_takeWhile_pred hc
        simpa using this
      · have hsplit : r0 = r0.takeWhile (fun c => !(c = ']')) ++ (']' :: r2) := by
          rw [← hdw]; exact (List.takeWhile_append_dropWhile ..).symm
        conv_lhs => rw [hcs, hsplit]
        simp
    next hne => exact absurd h (by simp)

theorem dropEdit_complete {body r : List Char} (hb : ∀ c ∈ body, c ≠ ']') :
    dropEdit (("[edit".data) ++ body ++ ']' :: r) = some r := by
  unfold dropEdit
  have hlit : dropLit ("[edit".data)
      (("[edit".data) ++ body ++ ']' :: r) = some (body ++ ']' :: r) := by
    rw [dropLit_eq_some_iff]; simp
  rw [hlit]
  have hhd : ∀ c, (']' :: r).head? = some c → (fun c => !(c = ']')) c = false := by
    intro c hc; simp at hc; subst hc; simp
  have h12 := takeWhile_append_all (fun c => !(c = ']'))
    body (']' :: r) (fun c hc => by simpa using hb c hc) hhd
  simp [h12.2]

/-! ### Equivalence of the matcher with the documented grammar -/

theorem matchAnnotTail_iff {cs : List Char} :
    matchAnnotTail cs = true ↔
      ∃ a w, (a = [] ∨ IsPendingNote a) ∧ (∀ c ∈ w, isSpaceChar c = true) ∧
        cs = a ++ w := by
  constructor
  · intro hm
    rw [matchAnnotTail, Bool.or_eq_true] at hm
    rcases hm with hm | hm
    · exact ⟨[], cs, Or.inl rfl, by simpa [allSpace, List.all_eq_true] using hm, by simp⟩
    · rw [Bool.and_eq_true] at hm
      obtain ⟨hne, hmatch⟩ := hm
      split at hmatch
      next r hdl =>
        refine ⟨cs.takeWhile isSpaceChar ++ ("(pending changes)".data), r,
          Or.inr ⟨cs.takeWhile isSpaceChar, ?_, fun c hc => mem_takeWhile_pred hc, rfl⟩,
          by simpa [allSpace, List.all_eq_true] using hmatch, ?_⟩
        · intro hnil; rw [hnil] at hne; simp at hne
        · have hdw : cs.dropWhile isSpaceChar = ("(pending changes)".data) ++ r :=
            dropLit_eq_some_iff.mp hdl
          conv_lhs => rw [← List.takeWhile_append_dropWhile (p := isSpaceChar) (l := cs), hdw]
          simp
      next => simp at hmatch
  · rintro ⟨a, w, ha, hw, rfl⟩
    rw [matchAnnotTail, Bool.or_eq_true]
    rcases ha with rfl | ⟨sp, hsp, hspc, rfl⟩
    · left
      simpa [allSpace, List.all_eq_true] using hw
    · right
      rw [Bool.and_eq_true]
      have hhd : ∀ c, ((("(pending changes)".data) ++ w).head? = some c) →
          isSpaceChar c = false := by
        intro c hc
        have : (("(pending changes)".data) ++ w).head? = some '(' := rfl
        rw [this] at hc
        cases hc
        decide
      have h12 := takeWhile_append_all isSpaceChar sp
        (("(pending changes)".data) ++ w) hspc hhd
      have harr : (sp ++ ("(pending changes)".data)) ++ w
          = sp ++ (("(pending changes)".data) ++ w) := by simp
      rw [harr, h12.1, h12.2]
      constructor
      · simpa using hsp
      · have hdl : dropLit ("(pending changes)".data)
            (("(pending changes)".data) ++ w) = some w := dropLit_eq_some_iff.mpr rfl
        rw [hdl]
        simpa [allSpace, List.all_eq_true] using hw

theorem matchSigilTail_iff {annot : Bool} {cs : List Char} :
    matchSigilTail annot cs = true ↔
      ∃ a w, (if annot then (a = [] ∨ IsPendingNote a) else a = []) ∧
        (∀ c ∈ w, isSpaceChar c = true) ∧ cs = a ++ w := by
  cases annot with
  | true => simpa [matchSigilTail] using matchAnnotTail_iff
  | false =>
    have hms : matchSigilTail false cs = allSpace cs := rfl
    rw [hms]
    constructor
    · intro hm
      exact ⟨[], cs, by simp, by simpa [allSpace, List.all_eq_true] using hm, by simp⟩
    · rintro ⟨a, w, ha, hw, rfl⟩
      simp only [Bool.false_eq_true, if_false] at ha
      subst ha
      simpa [allSpace, List.all_eq_true] using hw

theorem matchFromIdent_iff {annot : Bool} {cs : List Char} :
    matchFromIdent annot cs = true ↔
      ∃ u h sg rest, IsIdent u ∧ IsIdent h ∧
        (sg = '%' ∨ sg = '>' ∨ sg = '#') ∧ matchSigilTail annot rest = true ∧
        cs = u ++ '@' :: (h ++ sg :: rest) := by
  constructor
  · intro hm
    unfold matchFromIdent at hm
    split at hm
    next => simp at hm
    next r hdi =>
      split at hm
      next r2 =>
        split at hm
        next => simp at hm
        next r3 hdi2 =>
          split at hm
          next c r4 =>
            rw [Bool.and_eq_true] at hm
            obtain ⟨hsig, hst⟩ := hm
            obtain ⟨u, hu, hcs, _⟩ := dropIdent_sound hdi
            obtain ⟨h', hh, hr2, _⟩ := dropIdent_sound hdi2
            refine ⟨u, h', c, r4, hu, hh, ?_, hst, ?_⟩
            · simpa [isSigil, or_assoc] using hsig
            · rw [hcs, hr2]
          next => simp at hm
      next hne => simp at hm
  · rintro ⟨u, h', sg, rest, hu, hh, hsg, hst, rfl⟩
    have hsigil : isSigil sg = true := by
      rcases hsg with rfl | rfl | rfl <;> decide
    have hnotid : isIdentChar sg = false := by
      rcases hsg with rfl | rfl | rfl <;> decide
    have h1 : dropIdent (u ++ '@' :: (h' ++ sg :: rest))
        = some ('@' :: (h' ++ sg :: rest)) :=
      dropIdent_complete hu (by intro c hc; simp at hc; subst hc; decide)
    have h2 : dropIdent (h' ++ sg :: rest) = some (sg :: rest) :=
      dropIdent_complete hh (by intro c hc; simp at hc; subst hc; exact hnotid)
    unfold matchFromIdent
    rw [h1]
    simp [h2, hsigil, hst]

theorem matchFromEdit_iff {annot : Bool} {cs : List Char} :
    matchFromEdit annot cs = true ↔
      ∃ e rest, (e = [] ∨ IsHierMarker e) ∧ matchFromIdent annot rest = true ∧
        cs = e ++ rest := by
  constructor
  · intro hm
    rw [matchFromEdit, Bool.or_eq_true] at hm
    rcases hm with hm | hm
    · split at hm
      next r hde =>
        obtain ⟨m, hmark, hcs⟩ := dropEdit_sound hde
        exact ⟨m, r, Or.inr hmark, hm, hcs⟩
      next => simp at hm
    · exact ⟨[], cs, Or.inl rfl, hm, by simp⟩
  · rintro ⟨e, rest, he, hmi, rfl⟩
    rw [matchFromEdit, Bool.or_eq_true]
    rcases he with rfl | ⟨body, hb, rfl⟩
    · right; simpa using hmi
    · left
      have harr : ((("[edit".data) ++ body ++ [']']) ++ rest)
          = ("[edit".data) ++ body ++ ']' :: rest := by simp
      rw [harr, dropEdit_complete hb]
      exact hmi

theorem matchCore_iff {annot : Bool} {cs : List Char} :
    matchCore annot cs = true ↔
      ∃ m rest, (m = [] ∨ IsModeMarker m) ∧ matchFromEdit annot rest = true ∧
        cs = m ++ rest := by
  constructor
  · intro hm
    rw [matchCore, Bool.or_eq_true] at hm
    rcases hm with hm | hm
    · split at hm
      next r hdm =>
        obtain ⟨m, hmark, hcs⟩ := dropMaster_sound hdm
        exact ⟨m, r, Or.inr hmark, hm, hcs⟩
      next => simp at hm
    · exact ⟨[], cs, Or.inl rfl, hm, by simp⟩
  · rintro ⟨m, rest, hmode, hfe, rfl⟩
    rw [matchCore, Bool.or_eq_true]
    rcases hmode with rfl | ⟨ds, hne, hds, rfl⟩
    · right; simpa using hfe
    · left
      have harr : ((("\x7bmaster:".data) ++ ds ++ ['\x7d']) ++ rest)
          = ("\x7bmaster:".data) ++ ds ++ '\x7d' :: rest := by simp
      rw [harr, dropMaster_complete hne hds]
      exact hfe

theorem matchCore_iff_grammar {annot : Bool} {cs : List Char} :
    matchCore annot cs = true ↔ PromptGrammar annot cs := by
  rw [matchCore_iff]
  constructor
  · rintro ⟨m, r1, hmode, hfe, rfl⟩
    obtain ⟨e, r2, hhier, hfi, rfl⟩ := matchFromEdit_iff.mp hfe
    obtain ⟨u, h', sg, rest, hu, hh, hsg, hst, rfl⟩ := matchFromIdent_iff.mp hfi
    obtain ⟨a, w, ha, hw, rfl⟩ := matchSigilTail_iff.mp hst
    exact ⟨m, e, u, h', sg, a, w, hmode, hhier, hu, hh, hsg, ha, hw, by simp⟩
  · rintro ⟨m, e, u, h', sg, a, w, hmode, hhier, hu, hh, hsg, ha, hw, rfl⟩
    refine ⟨m, e ++ (u ++ '@' :: (h' ++ sg :: (a ++ w))), hmode, ?_, by simp⟩
    refine matchFromEdit_iff.mpr ⟨e, u ++ '@' :: (h' ++ sg :: (a ++ w)), hhier, ?_, rfl⟩
    refine matchFromIdent_iff.mpr ⟨u, h', sg, a ++ w, hu, hh, hsg, ?_, rfl⟩
    exact matchSigilTail_iff.mpr ⟨a, w, ha, hw, rfl⟩

theorem promptSearch_iff {annot : Bool} {s : String} :
    promptSearch annot s = true ↔ TailMatchesPrompt annot s.data := by
  rw [promptSearch, List.any_eq_true]
  constructor
  · rintro ⟨t, ht, hm⟩
    rw [List.mem_tails] at ht
    obtain ⟨p, hp⟩ := ht
    exact ⟨p, t, hp.symm, matchCore_iff_grammar.mp hm⟩
  · rintro ⟨p, t, heq, hg⟩
    exact ⟨t, (List.mem_tails _ _).mpr ⟨p, heq.symm⟩, matchCore_iff_grammar.mpr hg⟩

/-! ### Claim C2 -/

/-- Claim C2, counterexample.  Prepending the prefix `u` to the buffer
`@host> ` flips the reader's terminating-prompt predicate from false to
true, so the predicate's value is not unchanged under prepending an
arbitrary prefix; and the predicate used by `exec_command` on the last
output line differs from the reader's on the concrete buffer
`user@host# (pending changes)`, so the two are not the same predicate. -/
theorem claim_C2_counterexample :
    (isTerminatingPrompt "@host> " = false ∧
     isTerminatingPrompt ("u" ++ "@host> ") = true) ∧
    (isTerminatingPrompt "user@host# (pending changes)" = true ∧
     execPromptMatch "user@host# (pending changes)" = false) := by
  constructor
  · constructor
    · decide
    · decide
  · constructor
    · decide
    · decide

/-- Claim C2 (amended): the reader's terminating-prompt predicate holds
iff some tail of the buffer matches the documented grammar
(mode marker? hierarchy marker? identifier `@` identifier sigil
trailing-note? whitespace*), anchored at the end of the buffer; a true
verdict is preserved by prepending any prefix (but not reflected, per the
counterexample); and the predicate `exec_command` applies to the last
output line is the same grammar without the trailing-note alternative. -/
theorem claim_C2_amended :
    (∀ s : String, isTerminatingPrompt s = true ↔ TailMatchesPrompt true s.data) ∧
    (∀ s1 s2 : String, isTerminatingPrompt s2 = true →
        isTerminatingPrompt (s1 ++ s2) = true) ∧
    (∀ s : String, execPromptMatch s = true ↔ TailMatchesPrompt false s.data) := by
  refine ⟨fun s => promptSearch_iff, ?_, fun s => promptSearch_iff⟩
  intro s1 s2 h
  rw [isTerminatingPrompt, promptSearch_iff] at h ⊢
  obtain ⟨p, t, heq, hg⟩ := h
  refine ⟨s1.data ++ p, t, ?_, hg⟩
  rw [String.data_append, heq]
  simp

/-- Claim C2 witness: the amended monotonicity conjunct applied at the
concrete prefix `xx` and buffer `user@host> `. -/
theorem claim_C2_witness : isTerminatingPrompt ("xx" ++ "user@host> ") = true :=
  claim_C2_amended.2.1 "xx" "user@host> " (by decide)

/-! ### The session reader `_read_until_prompt`

The polling loop (source lines 145-171) is embedded as a fuel-indexed
function over a scripted transport `avail : Nat → Option String`, where
`avail j` is the chunk obtained at the j-th `recv_ready` poll (`none`
means no data ready).  Time is counted in poll intervals (0.1 s units):
`t` is the number of `time.sleep(0.1)` calls performed so far, and the
deadline check `time.time() - start > timeout` becomes `t > tmo` with
`tmo` the timeout expressed in the same units.  Pagination branches end
in `continue`, so they skip both the deadline check and the sleep, as in
the source.  `w` counts the single-space writes sent to the pager. -/

/-- Pagination marker `---(more)---` (stripped length 12). -/
def moreMarker : String := "---(more)---"

/-- Pagination marker `---(more 100%)---` (stripped length 17). -/
def moreMarker100 : String := "---(more 100%)---"

/-- Python `buffer.endswith(t)`. -/
def pyEndsWith (s t : String) : Bool := t.data.isSuffixOf s.data

/-- Python `buffer[:-n]` for `n ≤ len(buffer)`. -/
def pyDropRight (s : String) (n : Nat) : String :=
  ⟨s.data.take (s.data.length - n)⟩

/-- Outcome of one `_read_until_prompt` call: normal return (with its
write count and sleep count), the `TimeoutError` carrying the buffer
accumulated so far, or fuel exhaustion (the loop still running). -/
inductive RupResult where
  | ok (buf : String) (writes : Nat) (sleeps : Nat)
  | timeout (sofar : String) (sleeps : Nat)
  | noFuel
deriving DecidableEq, Repr

/-- The polling loop of `_read_until_prompt` (source lines 148-171). -/
def rupFuel : Nat → (Nat → Option String) → Nat → Nat → Nat → String → Nat → RupResult
  | 0, _, _, _, _, _, _ => .noFuel
  | n + 1, avail, tmo, j, t, buf, w =>
    match avail j with
    | some c =>
      let b := buf ++ c
      if pyEndsWith b moreMarker then
        rupFuel n avail tmo (j + 1) t (pyDropRight b 12) (w + 1)
      else if pyEndsWith b moreMarker100 then
        rupFuel n avail tmo (j + 1) t (pyDropRight b 17) (w + 1)
      else if isTerminatingPrompt b then .ok b w t
      else if t > tmo then .timeout b t
      else rupFuel n avail tmo (j + 1) (t + 1) b w
    | none =>
      if t > tmo then .timeout buf t
      else rupFuel n avail tmo (j + 1) (t + 1) buf w

/-- The scripted transport of the pagination round-trip scenario. -/
def c3script : Nat → Option String := fun j =>
  if j = 0 then some "chunk1---(more)---"
  else if j = 1 then some "chunk2\nuser@host> " else none

/-- A transport that floods pagination markers forever. -/
def floodScript : Nat → Option String := fun _ => some "---(more)---"

example : rupFuel 2 c3script 300 0 0 "" 0 = .ok "chunk1chunk2\nuser@host> " 1 0 := by
  decide

/-! ### Claim C3 -/

/-- Claim C3: when the accumulated buffer ends with a pagination marker,
the reader strips exactly that marker's length (12 for `---(more)---`,
17 for `---(more 100%)---`), writes exactly one space (the write counter
increments by one), and continues polling with neither a sleep nor a
deadline check; consequently the scripted transport that emits
`chunk1---(more)---` and then, after the space, `chunk2\nuser@host> `
yields the single buffer `chunk1chunk2\nuser@host> ` with exactly one
space written. -/
theorem claim_C3 :
    (∀ (n : Nat) (avail : Nat → Option String) (tmo j t : Nat) (buf : String)
        (w : Nat) (c : String), avail j = some c →
       pyEndsWith (buf ++ c) moreMarker = true →
       rupFuel (n + 1) avail tmo j t buf w
         = rupFuel n avail tmo (j + 1) t (pyDropRight (buf ++ c) 12) (w + 1)) ∧
    (∀ (n : Nat) (avail : Nat → Option String) (tmo j t : Nat) (buf : String)
        (w : Nat) (c : String), avail j = some c →
       pyEndsWith (buf ++ c) moreMarker = false →
       pyEndsWith (buf ++ c) moreMarker100 = true →
       rupFuel (n + 1) avail tmo j t buf w
         = rupFuel n avail tmo (j + 1) t (pyDropRight (buf ++ c) 17) (w + 1)) ∧
    rupFuel 2 c3script 300 0 0 "" 0 = .ok "chunk1chunk2\nuser@host> " 1 0 := by
  refine ⟨?_, ?_, by decide⟩
  · intro n avail tmo j t buf w c hav hm
    simp [rupFuel, hav, hm]
  · intro n avail tmo j t buf w c hav hm hm100
    simp [rupFuel, hav, hm, hm100]

/-- Claim C3 witness: the pagination step of the theorem applied at the
first poll of the concrete scripted transport. -/
theorem claim_C3_witness :
    rupFuel 2 c3script 300 0 0 "" 0
      = rupFuel 1 c3script 300 1 0 (pyDropRight ("" ++ "chunk1---(more)---") 12) (0 + 1) :=
  claim_C3.1 1 c3script 300 0 0 "" 0 "chunk1---(more)---" rfl (by decide)

/-! ### Claim C4 -/

/-- Sleep-count invariant: any `timeout` outcome reached from a state with
at most `tmo + 1` sleeps carries a sleep count in `(tmo, tmo + 1]`. -/
theorem rupFuel_timeout_bounds (fuel : Nat) :
    ∀ (avail : Nat → Option String) (tmo j t : Nat) (buf : String) (w : Nat)
      (sofar : String) (t' : Nat), t ≤ tmo + 1 →
      rupFuel fuel avail tmo j t buf w = .timeout sofar t' →
      tmo < t' ∧ t' ≤ tmo + 1 := by
  induction fuel with
  | zero =>
    intro avail tmo j t buf w sofar t' hle h
    simp [rupFuel] at h
  | succ n ih =>
    intro avail tmo j t buf w sofar t' hle h
    rw [rupFuel] at h
    cases havail : avail j with
    | some c =>
      rw [havail] at h
      simp only at h
      split at h
      · exact ih _ _ _ _ _ _ _ _ hle h
      · split at h
        · exact ih _ _ _ _ _ _ _ _ hle h
        · split at h
          · exact absurd h (by simp)
          · split at h
            next hgt =>
              obtain ⟨rfl, rfl⟩ : buf ++ c = sofar ∧ t = t' := by
                simpa using h
              exact ⟨hgt, hle⟩
            next hgt =>
              exact ih _ _ _ _ _ _ _ _ (by omega) h
    | none =>
      rw [havail] at h
      simp only at h
      split at h
      next hgt =>
        obtain ⟨rfl, rfl⟩ : buf = sofar ∧ t = t' := by simpa using h
        exact ⟨hgt, hle⟩
      next hgt =>
        exact ih _ _ _ _ _ _ _ _ (by omega) h

/-- A silent transport makes the reader raise `TimeoutError` carrying the
accumulated buffer after `d + 1` further iterations when `t + d = tmo + 1`. -/
theorem rupFuel_silent (d : Nat) :
    ∀ (tmo j t : Nat) (buf : String) (w : Nat), t + d = tmo + 1 →
      rupFuel (d + 1) (fun _ => none) tmo j t buf w = .timeout buf (tmo + 1) := by
  induction d with
  | zero =>
    intro tmo j t buf w ht
    have hgt : t > tmo := by omega
    simp [rupFuel, hgt]
    omega
  | succ d ih =>
    intro tmo j t buf w ht
    have hngt : ¬ t > tmo := by omega
    rw [rupFuel]
    simp only [hngt, if_false]
    exact ih tmo (j + 1) (t + 1) buf w (by omega)

/-- A transport that floods pagination markers keeps the loop on the
`continue` branch forever: the deadline check is never reached, no sleep
happens, and the reader neither returns nor raises for any amount of fuel. -/
theorem rupFuel_flood (n : Nat) :
    ∀ (tmo j w : Nat), rupFuel n floodScript tmo j 0 "" w = .noFuel := by
  induction n with
  | zero => intro tmo j w; rfl
  | succ n ih =>
    intro tmo j w
    have h1 : pyEndsWith ("" ++ "---(more)---") moreMarker = true := by decide
    have h2 : pyDropRight ("" ++ "---(more)---") 12 = "" := by decide
    rw [rupFuel]
    show (if pyEndsWith ("" ++ "---(more)---") moreMarker then _ else _) = _
    rw [h1]
    simp only [if_true, h2]
    exact ih tmo (j + 1) (w + 1)

/-- Claim C4, counterexample.  The transport that floods pagination
markers never produces a terminating prompt, yet the reader does not fail
with a timeout: with deadline 10 poll intervals (for which a silent
transport would raise by iteration 12), after 1000 iterations the loop is
still running, because the pagination `continue` branch skips the deadline
check. -/
theorem claim_C4_counterexample :
    rupFuel 1000 floodScript 10 0 0 "" 0 = .noFuel :=
  rupFuel_flood 1000 10 0 0

/-- Claim C4 (amended): whenever `_read_until_prompt` does fail with a
timeout, the error carries the buffer accumulated so far and the failure
occurs strictly after the deadline and no later than the deadline plus one
poll interval; a transport that makes no data available does fail that way
(carrying the partial buffer); but a transport that keeps the buffer
ending in a pagination marker on every poll never reaches the deadline
check, so the reader never fails at all. -/
theorem claim_C4_amended :
    (∀ (fuel : Nat) (avail : Nat → Option String) (tmo : Nat) (buf : String)
        (sofar : String) (t' : Nat),
       rupFuel fuel avail tmo 0 0 buf 0 = .timeout sofar t' →
       tmo < t' ∧ t' ≤ tmo + 1) ∧
    (∀ (tmo j : Nat) (buf : String) (w : Nat),
       rupFuel (tmo + 2) (fun _ => none) tmo j 0 buf w = .timeout buf (tmo + 1)) ∧
    (∀ (n tmo j w : Nat), rupFuel n floodScript tmo j 0 "" w = .noFuel) := by
  refine ⟨?_, ?_, fun n tmo j w => rupFuel_flood n tmo j w⟩
  · intro fuel avail tmo buf sofar t' h
    exact rupFuel_timeout_bounds fuel avail tmo 0 0 buf 0 sofar t' (by omega) h
  · intro tmo j buf w
    have := rupFuel_silent (tmo + 1) tmo j 0 buf w (by omega)
    simpa using this

/-- Claim C4 witness: the timing bound applied to a concrete silent run
with deadline 10, which times out with 11 sleeps. -/
theorem claim_C4_witness : 10 < 11 ∧ 11 ≤ 10 + 1 :=
  claim_C4_amended.1 12 (fun _ => none) 10 "" "" 11 (by decide)

/-! ### The command executor and the completion self-test

`exec_command` (source lines 226-288), `test_completion` (187-224) and
`_ensure_clean_prompt` (173-185) interact with the channel only through
`send` and `_read_until_prompt`.  They are embedded as functions over a
channel state `St` holding the remaining script of read outcomes (each
entry is what one `_read_until_prompt` call produces: a buffer, a
`TimeoutError` carrying the partial buffer, or another exception, e.g. a
socket or decode error raised inside `recv`; an exhausted script is
treated as such an exception), the list of strings sent so far, and the
lines handed to `print_function` (the sink).  The model assumes the
session is connected (`isconnected()` true), as every claim about
`exec_command` stipulates; debug text whose exact content the source
builds from `str(e)`/`traceback` is modeled up to a placeholder. -/

/-- Outcome of one scripted `_read_until_prompt` call. -/
inductive ReadOutcome where
  | ok (buf : String)
  | timeout (sofar : String)
  | err
deriving DecidableEq, Repr

deriving instance DecidableEq for Except

/-- Exceptions visible to the embedded control flow. -/
inductive Err where
  | timeout (sofar : String)
  | err
deriving DecidableEq, Repr

/-- Channel state: pending read script, strings sent, sink lines. -/
structure St where
  script : List ReadOutcome
  sends : List String
  sink : List String
deriving DecidableEq, Repr

/-- Record a `send` on the shell channel. -/
def sendSt (s : String) (st : St) : St := { st with sends := st.sends ++ [s] }

/-- Record a `print_function` call. -/
def pf (l : String) (st : St) : St := { st with sink := st.sink ++ [l] }

/-- Scripted `_read_until_prompt`: consume the next read outcome. -/
def rupSt (st : St) : St × Except Err String :=
  match st.script with
  | [] => (st, .error .err)
  | o :: rest =>
    let st' : St := { st with script := rest }
    match o with
    | .ok b => (st', .ok b)
    | .timeout sofar => (st', .error (.timeout sofar))
    | .err => (st', .error .err)

/-- Model of `_ensure_clean_prompt`: send Ctrl+U plus newline, then read. -/
def ensure_clean_prompt (st : St) : St × Except Err String :=
  rupSt (sendSt "\x15\n" st)

/-- Message text of an exception, as interpolated by the source's
f-strings (`str(e)` for the reader's `TimeoutError`). -/
def errStr : Err → String
  | .timeout sofar => "Timeout waiting for prompt. Buffer received: " ++ sofar
  | .err => "<exception>"

/-- Model of `test_completion` (source lines 187-224): clean prompt, send
the command followed by `?`, read, clean up; any exception yields `false`. -/
def test_completion (cmd : String) (st : St) : St × Bool :=
  let st := pf "[DEBUG] Starting completion test" st
  match ensure_clean_prompt st with
  | (st, .error e) => (pf ("[DEBUG] Test error: " ++ errStr e ++ "\n<traceback>") st, false)
  | (st, .ok output) =>
    let st := pf ("[DEBUG] Current prompt:\n" ++ output) st
    let st := pf ("[DEBUG] Sending command: " ++ cmd ++ "?") st
    let st := sendSt (cmd ++ "?\n") st
    match rupSt st with
    | (st, .error e) => (pf ("[DEBUG] Test error: " ++ errStr e ++ "\n<traceback>") st, false)
    | (st, .ok output2) =>
      let st := pf ("[DEBUG] Response from device:\n" ++ output2) st
      let st := sendSt "\x15\n" st
      match rupSt st with
      | (st, .error e) => (pf ("[DEBUG] Test error: " ++ errStr e ++ "\n<traceback>") st, false)
      | (st, .ok _) => (st, true)

/-- Split a character list at the first space, Python `split(" ", 1)`. -/
def splitFirstSpace : List Char → Option (List Char × List Char)
  | [] => none
  | c :: cs =>
    if c = ' ' then some ([], cs)
    else
      match splitFirstSpace cs with
      | none => none
      | some (a, b) => some (c :: a, b)

/-- The test command extracted at source line 245:
`cmd.split(" ", 1)[1] if " " in cmd else ""`. -/
def testCmdOf (cmd : String) : String :=
  match splitFirstSpace cmd.data with
  | some (_, aft) => ⟨aft⟩
  | none => ""

/-- Echo stripping (source lines 261-262): drop the first line when its
trimmed form equals the trimmed command. -/
def dropEchoLine (cmd : String) (L : List String) : List String :=
  match L with
  | [] => []
  | l0 :: rest => if pyStrip l0 = pyStrip cmd then rest else l0 :: rest

/-- Trailing-prompt stripping (source lines 263-264): drop the last line
when it matches the annotation-free prompt pattern. -/
def dropLastIfPromptLine (L : List String) : List String :=
  match L.getLast? with
  | some ll => if execPromptMatch ll then L.dropLast else L
  | none => L

/-- Output post-processing of `exec_command`: split into lines, strip the
echo, strip the trailing prompt line. -/
def processLines (cmd output : String) : List String :=
  dropLastIfPromptLine (dropEchoLine cmd (pySplitNL output))

/-- Error-marker scan (source lines 267-276): the lowercased line, after
optional leading whitespace, starts with one of the four fixed markers. -/
def hasErrorLine (l : String) : Bool :=
  let low := (pyLower l).data.dropWhile isSpaceChar
  ("error:".data).isPrefixOf low || ("unknown command.".data).isPrefixOf low ||
  ("syntax error.".data).isPrefixOf low || ("invalid command.".data).isPrefixOf low

/-- The `except TimeoutError` handler of `exec_command` (lines 285-288):
report the error, re-run the clean-prompt re-sync, return status 1. -/
def execTimeoutHandler (sofar : String) (st : St) : St × Except Err Nat :=
  let st := pf ("[ssh] Error: " ++ errStr (.timeout sofar) ++ "\n") st
  match ensure_clean_prompt st with
  | (st, .ok _) => (st, .ok 1)
  | (st, .error e) => (st, .error e)

/-- Model of `exec_command` (source lines 226-288) on a connected session. -/
def exec_command (cmd : String) (st : St) : St × Except Err Nat :=
  if ("__test_completion".data).isPrefixOf cmd.data then
    let p := test_completion (testCmdOf cmd) st
    (p.1, .ok (if p.2 then 0 else 1))
  else
    let cmd := pyStrip cmd
    let st := pf ("[ssh] Sending command: " ++ cmd ++ "\n") st
    let st := sendSt (cmd ++ "\n") st
    match rupSt st with
    | (st, .ok output) =>
      let lines := processLines cmd output
      let st := lines.foldl (fun s l => pf (l ++ "\n") s) st
      match ensure_clean_prompt st with
      | (st, .ok _) => (st, .ok (if lines.any hasErrorLine then 1 else 0))
      | (st, .error (.timeout sofar)) => execTimeoutHandler sofar st
      | (st, .error .err) => (st, .error .err)
    | (st, .error (.timeout sofar)) => execTimeoutHandler sofar st
    | (st, .error .err) => (st, .error .err)

example :
    exec_command "show version"
      ⟨[.ok "show version\nline1\nline2\nuser@host> ", .ok "user@host> "], [], []⟩
      = (⟨[], ["show version\n", "\x15\n"],
          ["[ssh] Sending command: show version\n", "line1\n", "line2\n"]⟩,
         .ok 0) := by decide

/-! ### Claim C1 -/

theorem splitNL_no_newline {l : List Char} (h : '\n' ∉ l) : splitNL l = [l] := by
  induction l with
  | nil => rfl
  | cons c cs ih =>
    have hc : ¬ c = '\n' := fun hc => h (by simp [hc])
    have ih' := ih (fun hm => h (by simp [hm]))
    simp [splitNL, hc, ih']

theorem splitNL_append_newline {l rest : List Char} (h : '\n' ∉ l) :
    splitNL (l ++ '\n' :: rest) = l :: splitNL rest := by
  induction l with
  | nil => simp [splitNL]
  | cons c cs ih =>
    have hc : ¬ c = '\n' := fun hc => h (by simp [hc])
    have ih' := ih (fun hm => h (by simp [hm]))
    simp [splitNL, hc, ih']

theorem splitNL_joinNL {L : List (List Char)} (hne : L ≠ [])
    (h : ∀ l ∈ L, '\n' ∉ l) : splitNL (joinNL L) = L := by
  induction L with
  | nil => exact absurd rfl hne
  | cons l ls ih =>
    cases ls with
    | nil => simpa [joinNL] using splitNL_no_newline (h l (by simp))
    | cons l2 ls2 =>
      have hj : joinNL (l :: l2 :: ls2) = l ++ '\n' :: joinNL (l2 :: ls2) := rfl
      rw [hj, splitNL_append_newline (h l (by simp))]
      rw [ih (by simp) (fun x hx => h x (by simp [hx]))]

theorem pySplitNL_joinLinesS {L : List String} (hne : L ≠ [])
    (h : ∀ l ∈ L, '\n' ∉ l.data) : pySplitNL (joinLinesS L) = L := by
  rw [pySplitNL, joinLinesS]
  rw [show (String.mk (joinNL (L.map String.data))).data
      = joinNL (L.map String.data) from rfl]
  rw [splitNL_joinNL (by simpa using hne)
    (by rintro x hx; obtain ⟨s, hs, rfl⟩ := List.mem_map.mp hx; exact h s hs)]
  rw [List.map_map]
  have hid : (String.mk ∘ String.data) = id := funext fun s => rfl
  rw [hid, List.map_id]

theorem foldl_sink (lines : List String) (st : St) :
    lines.foldl (fun s l => { s with sink := s.sink ++ [l ++ "\n"] }) st
      = { st with sink := st.sink ++ lines.map (fun l => l ++ "\n") } := by
  induction lines generalizing st with
  | nil => cases st; simp
  | cons l ls ih =>
    rw [List.foldl_cons, ih]
    cases st
    simp

/-- Claim C1, counterexample.  The echo line ` show` is not equal to the
trimmed command `show`, yet `exec_command` drops it (the source compares
the line's trimmed form, not the line); and the last line
`user@host# (pending changes)` matches the reader's terminating-prompt
pattern, yet `exec_command` keeps it (the source's second regex lacks the
trailing-note branch). -/
theorem claim_C1_counterexample :
    (pyStrip " show" = pyStrip "show" ∧ (" show" : String) ≠ "show" ∧
     processLines "show" " show\nline1\nuser@host> " = ["line1"]) ∧
    (isTerminatingPrompt "user@host# (pending changes)" = true ∧
     processLines "show" "show\nline1\nuser@host# (pending changes)"
       = ["line1", "user@host# (pending changes)"]) := by
  refine ⟨⟨by decide, by decide, by decide⟩, ⟨by decide, by decide⟩⟩

/-- Claim C1 (amended): on a successful read of a buffer made of lines
`L`, `exec_command` drops the first line exactly when its trimmed form
equals the trimmed command, drops the last line exactly when it matches
the prompt pattern without the trailing-note branch, forwards each
remaining line with a newline appended to the sink in order, and returns
status 0 exactly when no remaining line carries an error marker. -/
theorem claim_C1_amended :
    ∀ (cmd : String) (L : List String) (r : String) (rest : List ReadOutcome)
      (sends sink : List String),
      L ≠ [] → (∀ l ∈ L, ('\n') ∉ l.data) →
      ("__test_completion".data).isPrefixOf cmd.data = false →
      pyStrip cmd = cmd →
      processLines cmd (joinLinesS L)
          = dropLastIfPromptLine (dropEchoLine cmd L) ∧
      exec_command cmd ⟨.ok (joinLinesS L) :: .ok r :: rest, sends, sink⟩
        = (⟨rest, sends ++ [cmd ++ "\n", "\x15\n"],
            sink ++ ("[ssh] Sending command: " ++ cmd ++ "\n")
              :: (dropLastIfPromptLine (dropEchoLine cmd L)).map (fun l => l ++ "\n")⟩,
           .ok (if (dropLastIfPromptLine (dropEchoLine cmd L)).any hasErrorLine
                then 1 else 0)) := by
  intro cmd L r rest sends sink hne hnl hpref hstrip
  have hsplit : pySplitNL (joinLinesS L) = L := pySplitNL_joinLinesS hne hnl
  have hproc : processLines cmd (joinLinesS L)
      = dropLastIfPromptLine (dropEchoLine cmd L) := by
    rw [processLines, hsplit]
  refine ⟨hproc, ?_⟩
  rw [exec_command]
  simp only [hpref, Bool.false_eq_true, if_false, hstrip]
  simp [pf, sendSt, rupSt, ensure_clean_prompt, hproc, foldl_sink]

/-- Claim C1 witness: the amended theorem applied to the concrete
round-trip buffer `show version\nline1\nline2\nuser@host> `, whose echo
and prompt lines are dropped, yielding lines `line1`, `line2` and
status 0. -/
theorem claim_C1_witness :
    processLines "show version"
        (joinLinesS ["show version", "line1", "line2", "user@host> "])
      = ["line1", "line2"] ∧
    exec_command "show version"
        ⟨[.ok (joinLinesS ["show version", "line1", "line2", "user@host> "]),
          .ok "user@host> "], [], []⟩
      = (⟨[], ["show version\n", "\x15\n"],
          ["[ssh] Sending command: show version\n", "line1\n", "line2\n"]⟩,
         .ok 0) := by
  have h := claim_C1_amended "show version"
    ["show version", "line1", "line2", "user@host> "] "user@host> " [] [] []
    (by decide) (by decide) (by decide) (by decide)
  exact ⟨h.1.trans (by decide), h.2.trans (by decide)⟩

/-! ### Claim C5 -/

/-- Claim C5, counterexample.  The claim quantifies over every command on
a connected session, but a command beginning with `__test_completion`
takes the self-test path: with a script whose only outcome is a
non-timeout exception, `exec_command` returns status 1 although no output
line matched an error marker (the sink holds only debug lines, none of
which matches) and no read timed out. -/
theorem claim_C5_counterexample :
    exec_command "__test_completion show" ⟨[.err], [], []⟩
      = (⟨[], ["\x15\n"],
          ["[DEBUG] Starting completion test",
           "[DEBUG] Test error: <exception>\n<traceback>"]⟩, .ok 1) ∧
    hasErrorLine "[DEBUG] Starting completion test" = false ∧
    hasErrorLine "[DEBUG] Test error: <exception>\n<traceback>" = false := by
  refine ⟨by decide, by decide, by decide⟩

/-- Claim C5 (amended): for every command not beginning with
`__test_completion` on a connected session, `exec_command` returns 1
exactly when some post-stripping output line matches one of the fixed
error markers or a read timed out, and 0 otherwise; every output line is
forwarded to the sink regardless of matching; and on a read timeout it
still performs the clean-prompt re-synchronization (the Ctrl+U send)
before returning 1. -/
theorem claim_C5_amended :
    ∀ (cmd out r r2 sofar : String) (rest : List ReadOutcome)
      (sends sink : List String),
      ("__test_completion".data).isPrefixOf cmd.data = false →
      ((exec_command cmd ⟨.ok out :: .ok r :: rest, sends, sink⟩).2
         = .ok (if (processLines (pyStrip cmd) out).any hasErrorLine
                then 1 else 0)) ∧
      ((exec_command cmd ⟨.timeout sofar :: .ok r :: rest, sends, sink⟩).2
         = .ok 1) ∧
      ((exec_command cmd
          ⟨.ok out :: .timeout sofar :: .ok r2 :: rest, sends, sink⟩).2
         = .ok 1) ∧
      ((exec_command cmd ⟨.ok out :: .ok r :: rest, sends, sink⟩).1.sink
         = sink ++ ("[ssh] Sending command: " ++ pyStrip cmd ++ "\n")
             :: (processLines (pyStrip cmd) out).map (fun l => l ++ "\n")) ∧
      ((exec_command cmd ⟨.timeout sofar :: .ok r :: rest, sends, sink⟩).1.sends
         = sends ++ [pyStrip cmd ++ "\n", "\x15\n"]) := by
  intro cmd out r r2 sofar rest sends sink hpref
  refine ⟨?_, ?_, ?_, ?_, ?_⟩ <;>
    simp [exec_command, hpref, pf, sendSt, rupSt, ensure_clean_prompt,
      foldl_sink, execTimeoutHandler, errStr]

/-- Claim C5 witness: the amended theorem applied to the command `show x`
with a read yielding one `error: fail` line, which is forwarded and makes
the status 1; the conclusion is evaluated on those inputs. -/
theorem claim_C5_witness :
    (exec_command "show x"
        ⟨[.ok "show x\nerror: fail\nuser@host> ", .ok "user@host> "], [], []⟩).2
      = .ok (if (processLines (pyStrip "show x")
                  "show x\nerror: fail\nuser@host> ").any hasErrorLine
             then 1 else 0) :=
  (claim_C5_amended "show x" "show x\nerror: fail\nuser@host> " "user@host> "
    "" "" [] [] [] (by decide)).1

/-! ### Claim C10 -/

/-- Sends performed by the completion self-test: only the Ctrl+U clear
sequence and the test command followed by the query character. -/
theorem test_completion_sends (cmd : String) (st : St) :
    ∀ s ∈ (test_completion cmd st).1.sends.drop st.sends.length,
      s = "\x15\n" ∨ s = cmd ++ "?\n" := by
  rcases st with ⟨script, sends0, sink0⟩
  intro s hs
  cases script with
  | nil =>
    simp [test_completion, ensure_clean_prompt, rupSt, sendSt, pf,
      List.drop_left] at hs
    simp [hs]
  | cons o1 rest1 =>
    cases o1 with
    | timeout t1 =>
      simp [test_completion, ensure_clean_prompt, rupSt, sendSt, pf,
        List.drop_left] at hs
      simp [hs]
    | err =>
      simp [test_completion, ensure_clean_prompt, rupSt, sendSt, pf,
        List.drop_left] at hs
      simp [hs]
    | ok b1 =>
      cases rest1 with
      | nil =>
        simp [test_completion, ensure_clean_prompt, rupSt, sendSt, pf,
          List.drop_left] at hs
        rcases hs with h | h <;> simp [h]
      | cons o2 rest2 =>
        cases o2 with
        | timeout t2 =>
          simp [test_completion, ensure_clean_prompt, rupSt, sendSt, pf,
            List.drop_left] at hs
          rcases hs with h | h <;> simp [h]
        | err =>
          simp [test_completion, ensure_clean_prompt, rupSt, sendSt, pf,
            List.drop_left] at hs
          rcases hs with h | h <;> simp [h]
        | ok b2 =>
          cases rest2 with
          | nil =>
            simp [test_completion, ensure_clean_prompt, rupSt, sendSt, pf,
              List.drop_left] at hs
            rcases hs with h | h | h <;> simp [h]
          | cons o3 rest3 =>
            cases o3 <;>
              simp [test_completion, ensure_clean_prompt, rupSt, sendSt, pf,
                List.drop_left] at hs <;>
              rcases hs with h | h | h <;> simp [h]

/-- Claim C10: a command beginning with `__test_completion` is never sent
as a remote command by `exec_command`; it dispatches to the completion
self-test (which sends only clear-line sequences and the remainder of the
command after the first space followed by `?`) and the status is 0 when
the self-test succeeds, 1 otherwise. -/
theorem claim_C10 :
    ∀ (cmd : String) (st : St),
      ("__test_completion".data).isPrefixOf cmd.data = true →
      exec_command cmd st
        = ((test_completion (testCmdOf cmd) st).1,
           .ok (if (test_completion (testCmdOf cmd) st).2 then 0 else 1)) ∧
      (∀ s ∈ (exec_command cmd st).1.sends.drop st.sends.length,
        s = "\x15\n" ∨ s = testCmdOf cmd ++ "?\n") := by
  intro cmd st hpref
  have hdisp : exec_command cmd st
      = ((test_completion (testCmdOf cmd) st).1,
         .ok (if (test_completion (testCmdOf cmd) st).2 then 0 else 1)) := by
    simp [exec_command, hpref]
  refine ⟨hdisp, ?_⟩
  intro s hs
  rw [hdisp] at hs
  exact test_completion_sends (testCmdOf cmd) st s hs

/-- Claim C10 witness: the dispatch equation applied to the concrete
command `__test_completion show` with a successful three-read script,
yielding status 0, the query send `show?`, and no remote execution of the
command itself. -/
theorem claim_C10_witness :
    exec_command "__test_completion show"
        ⟨[.ok "user@host> ", .ok "show?\nPossible completions:\nuser@host> ",
          .ok "user@host> "], [], []⟩
      = (⟨[], ["\x15\n", "show?\n", "\x15\n"],
          ["[DEBUG] Starting completion test",
           "[DEBUG] Current prompt:\nuser@host> ",
           "[DEBUG] Sending command: show?",
           "[DEBUG] Response from device:\nshow?\nPossible completions:\nuser@host> "]⟩,
         .ok 0) :=
  ((claim_C10 "__test_completion show"
      ⟨[.ok "user@host> ", .ok "show?\nPossible completions:\nuser@host> ",
        .ok "user@host> "], [], []⟩ (by decide)).1).trans (by decide)

/-! ### The completion engine

`get_completions` (source lines 489-520), `_get_completions` (456-487),
`_get_completions_question_mark` (367-454) and the never-invoked
`_get_completions_cli_command` (326-365) are embedded over the same
channel state `St`.  Their `print_function` calls append only diagnostic
text that no claim observes, so the sink is left untouched here; sends
and reads are modeled exactly. -/

/-- Python `t in s` (substring containment): `t` is a prefix of some
suffix of `s`. -/
def pyContains (t s : String) : Bool :=
  s.data.tails.any (fun suf => t.data.isPrefixOf suf)

/-- Python `s.startswith(t)`. -/
def pyStartsWith (s t : String) : Bool := t.data.isPrefixOf s.data

/-- Remove one trailing newline, as `str.splitlines` ignores it. -/
def dropTrailNL (cs : List Char) : List Char :=
  if cs.getLast? = some '\n' then cs.dropLast else cs

/-- Python `s.splitlines()[-1] if s else ''` (newline dialect only). -/
def pyLastLine (s : String) : String :=
  if s.data.isEmpty then ""
  else ⟨((splitNL (dropTrailNL s.data)).getLast?).getD []⟩

/-- Python `lines[1:-1]`. -/
def innerLines (ls : List String) : List String := (ls.drop 1).dropLast

/-- Split at the first occurrence of a separator, Python `split(sep, 1)`. -/
def splitOnceOn (sep : List Char) : List Char → Option (List Char × List Char)
  | [] => none
  | c :: cs =>
    if sep.isPrefixOf (c :: cs) then some ([], (c :: cs).drop sep.length)
    else
      match splitOnceOn sep cs with
      | none => none
      | some (a, b) => some (c :: a, b)

/-- First component of Python `l.split('  ', 1)`. -/
def firstPartTwoSpace (l : String) : String :=
  match splitOnceOn ("  ".data) l.data with
  | some (a, _) => ⟨a⟩
  | none => l

/-- Python `p.rsplit(' ', 1)` when `p` contains a space. -/
def rsplitSpace1 (cs : List Char) : Option (List Char × List Char) :=
  match splitFirstSpace cs.reverse with
  | some (a, b) => some (b.reverse, a.reverse)
  | none => none

/-- `base_cmd` at source line 424. -/
def baseCmdOf (p : String) : String :=
  match rsplitSpace1 p.data with
  | some (b, _) => ⟨b⟩
  | none => ""

/-- `current_word` at source line 425. -/
def currentWordOf (p : String) : String :=
  match rsplitSpace1 p.data with
  | some (_, c) => ⟨c⟩
  | none => p

/-- The break condition at source line 407. -/
def qmErrorStop (l : String) : Bool :=
  pyContains "error:" (pyLower l) || pyContains "syntax error:" (pyLower l) ||
  pyContains "[edit]" (pyLower l)

/-- The parsing loop of the question-mark strategy (source lines 386-436),
over the inner lines, with the `in_completions` flag; `break` discards the
remaining lines but keeps what was already collected. -/
def qmCollect (frag : String) : Bool → List String → List String
  | _, [] => []
  | inComp, l :: rest =>
    if pyStrip l = "" then qmCollect frag inComp rest
    else if pyContains "Possible completions:" l then qmCollect frag true rest
    else if !inComp then qmCollect frag false rest
    else if qmErrorStop l then []
    else
      let l1 := pyStrip l
      let l2 := if pyStartsWith l1 ">" then pyStrip ⟨l1.data.drop 1⟩ else l1
      let word := pyStrip (firstPartTwoSpace l2)
      let base := baseCmdOf frag
      let cur := currentWordOf frag
      if pyStartsWith word cur then
        (if base ≠ "" then base ++ " " ++ word else word) :: qmCollect frag true rest
      else qmCollect frag true rest

/-- Parse a question-mark reply: skip the echoed query line and the
trailing prompt line, then run the collection loop. -/
def parseQm (frag output : String) : List String :=
  qmCollect frag false (innerLines (pySplitNL output))

/-- The `except` handler of the question-mark strategy (source lines
447-454): clear line, read, newline, read, then return `[]`; a failure
inside the handler propagates. -/
def qmCleanup (st : St) : St × Except Err (List String) :=
  let st := sendSt "\x15\n" st
  match rupSt st with
  | (st, .error e) => (st, .error e)
  | (st, .ok _) =>
    let st := sendSt "\n" st
    match rupSt st with
    | (st, .error e) => (st, .error e)
    | (st, .ok _) => (st, .ok [])

/-- Model of `_get_completions_question_mark` (source lines 367-454). -/
def _get_completions_question_mark (frag : String) (st : St) :
    St × Except Err (List String) :=
  match ensure_clean_prompt st with
  | (st, .error _) => qmCleanup st
  | (st, .ok _) =>
    let st := sendSt (frag ++ "?\n") st
    match rupSt st with
    | (st, .error _) => qmCleanup st
    | (st, .ok output) =>
      let comps := parseQm frag output
      let st := sendSt "\x15\n" st
      match rupSt st with
      | (st, .error _) => qmCleanup st
      | (st, .ok _) =>
        let st := sendSt "\n" st
        match rupSt st with
        | (st, .error _) => qmCleanup st
        | (st, .ok _) => (st, .ok comps)

/-- First whitespace-separated token (Python `split(None, 1)[0]`). -/
def firstWsToken (cs : List Char) : List Char :=
  (cs.dropWhile isSpaceChar).takeWhile (fun c => !(isSpaceChar c))

/-- The parsing loop of the never-invoked CLI strategy (source lines
340-350): skip blanks and the header, take the first token of each line,
and filter out bracketed placeholder hints. -/
def cliCollect : List String → List String
  | [] => []
  | l :: rest =>
    if pyStrip l = "" || pyStrip l = "Possible completions:" then cliCollect rest
    else
      let word : String := ⟨firstWsToken (pyStrip l).data⟩
      if !(pyStartsWith word "<") && !(pyEndsWith word ">") then
        word :: cliCollect rest
      else cliCollect rest

/-- Model of `_get_completions_cli_command` (source lines 326-365), which
no other function of the source ever calls. -/
def _get_completions_cli_command (frag : String) (st : St) :
    St × Except Err (Option (List String)) :=
  let ccmd := "show cli complete-on \"" ++ frag ++ "\""
  let st := sendSt (ccmd ++ "\n") st
  match rupSt st with
  | (st, .error _) =>
    match ensure_clean_prompt st with
    | (st, .error e) => (st, .error e)
    | (st, .ok _) => (st, .ok none)
  | (st, .ok output) =>
    let lines := pySplitNL output
    let comps := cliCollect (innerLines lines)
    match ensure_clean_prompt st with
    | (st, .error _) =>
      match ensure_clean_prompt st with
      | (st2, .error e2) => (st2, .error e2)
      | (st2, .ok _) => (st2, .ok none)
    | (st, .ok _) =>
      if !comps.isEmpty &&
          !(lines.any (fun l => pyContains "error: unknown command" (pyLower l))) then
        (st, .ok (some comps))
      else (st, .ok none)

/-- Model of `_get_completions` (source lines 456-487): clean prompt,
detect configuration mode from the last prompt line, strip a leading
`set ` keyword in that mode and retry with the full fragment when the
stripped attempt yields nothing; any exception yields `[]`. -/
def _get_completions (frag : String) (st : St) : St × List String :=
  match ensure_clean_prompt st with
  | (st, .error _) => (st, [])
  | (st, .ok output) =>
    let isConfig := (pyLastLine output).data.contains '#'
    if isConfig then
      if pyStartsWith frag "set " then
        match _get_completions_question_mark ⟨frag.data.drop 4⟩ st with
        | (st, .error _) => (st, [])
        | (st, .ok comps) =>
          if !comps.isEmpty then (st, comps.map (fun c => "set " ++ c))
          else
            match _get_completions_question_mark frag st with
            | (st, .error _) => (st, [])
            | (st, .ok comps2) => (st, comps2)
      else
        match _get_completions_question_mark frag st with
        | (st, .error _) => (st, [])
        | (st, .ok comps) => (st, comps)
    else
      match _get_completions_question_mark frag st with
      | (st, .error _) => (st, [])
      | (st, .ok comps) => (st, comps)

/-- The final filter of `get_completions` (source lines 503-510): keep the
trimmed candidates that strictly extend the (trimmed) input text. -/
def filterMatches (text : String) (comps : List String) : List String :=
  comps.filterMap (fun c =>
    let c2 := pyStrip c
    if pyStartsWith c2 text && !(c2 == text) then some c2 else none)

/-- Model of Python `set(...)`: deduplicate keeping first occurrences
(the set's unspecified iteration order is abstracted this way). -/
def dedupKeepFirst (l : List String) : List String :=
  l.foldl (fun acc x => if x ∈ acc then acc else acc ++ [x]) []

/-- Lexicographic comparison on character lists (by code point). -/
def ltCharList : List Char → List Char → Bool
  | [], [] => false
  | [], _ :: _ => true
  | _ :: _, [] => false
  | a :: as, b :: bs => if a < b then true else if b < a then false else ltCharList as bs

/-- The sort key order of `sorted(key=str.lower)`: compare lowercased
strings lexicographically (non-strict). -/
def leLower (x y : String) : Bool := !(ltCharList (pyLower y).data (pyLower x).data)

/-- Stable insertion by the case-insensitive key. -/
def insertByLower (x : String) : List String → List String
  | [] => [x]
  | y :: ys =>
    if leLower x y then x :: y :: ys else y :: insertByLower x ys

/-- Insertion sort by the case-insensitive key. -/
def sortByLower : List String → List String
  | [] => []
  | x :: xs => insertByLower x (sortByLower xs)

/-- `sorted(list(set(matches)), key=str.lower)` at source line 515. -/
def sortedSetByLower (l : List String) : List String :=
  sortByLower (dedupKeepFirst l)

/-- Model of `get_completions` (source lines 489-520). -/
def get_completions (text : String) (st : St) : St × List String :=
  if pyStrip text = "" then (st, [])
  else
    let text := pyStrip text
    let p := _get_completions text st
    (p.1, sortedSetByLower (filterMatches text p.2))

example :
    (get_completions "show v"
        ⟨[.ok "user@host> ", .ok "user@host> ",
          .ok "show v?\nPossible completions:\n  version  desc\n  vlan  desc\nuser@host> ",
          .ok "user@host> ", .ok "user@host> "], [], []⟩).2
      = ["show version", "show vlan"] := by decide

/-! ### Claim C6 -/

theorem rupSt_sends (st : St) : (rupSt st).1.sends = st.sends := by
  rcases st with ⟨script, sends0, sink0⟩
  cases script with
  | nil => rfl
  | cons o rest => cases o <;> rfl

theorem ensure_sends (st : St) :
    (ensure_clean_prompt st).1.sends = st.sends ++ ["\x15\n"] := by
  rw [ensure_clean_prompt, rupSt_sends]
  rfl

theorem qmCleanup_sends (st : St) :
    ∃ new, (qmCleanup st).1.sends = st.sends ++ new ∧
      ∀ s ∈ new, s = "\x15\n" ∨ s = "\n" := by
  rcases st with ⟨script, sends0, sink0⟩
  cases script with
  | nil =>
    exact ⟨["\x15\n"], by simp [qmCleanup, sendSt, rupSt], by decide⟩
  | cons o rest =>
    cases o with
    | ok b =>
      cases rest with
      | nil =>
        exact ⟨["\x15\n", "\n"], by simp [qmCleanup, sendSt, rupSt], by decide⟩
      | cons o2 rest2 =>
        cases o2 <;>
          exact ⟨["\x15\n", "\n"], by simp [qmCleanup, sendSt, rupSt], by decide⟩
    | timeout t =>
      exact ⟨["\x15\n"], by simp [qmCleanup, sendSt, rupSt], by decide⟩
    | err =>
      exact ⟨["\x15\n"], by simp [qmCleanup, sendSt, rupSt], by decide⟩

theorem qm_sends (frag : String) (st : St) :
    ∃ new, (_get_completions_question_mark frag st).1.sends = st.sends ++ new ∧
      ∀ s ∈ new, s = "\x15\n" ∨ s = "\n" ∨ s = frag ++ "?\n" := by
  rcases h1 : ensure_clean_prompt st with ⟨st1, r1⟩
  have hs1 : st1.sends = st.sends ++ ["\x15\n"] := by
    have := ensure_sends st
    rw [h1] at this
    exact this
  rw [_get_completions_question_mark]
  cases r1 with
  | error e =>
    simp only [h1]
    obtain ⟨new, hn, hp⟩ := qmCleanup_sends st1
    refine ⟨"\x15\n" :: new, by rw [hn, hs1]; simp, ?_⟩
    intro s hs
    rcases List.mem_cons.mp hs with rfl | hs
    · exact Or.inl rfl
    · rcases hp s hs with h | h
      · exact Or.inl h
      · exact Or.inr (Or.inl h)
  | ok out1 =>
    simp only [h1]
    rcases h2 : rupSt (sendSt (frag ++ "?\n") st1) with ⟨st2, r2⟩
    have hs2 : st2.sends = st.sends ++ ["\x15\n", frag ++ "?\n"] := by
      have := rupSt_sends (sendSt (frag ++ "?\n") st1)
      rw [h2] at this
      rw [this]
      show st1.sends ++ [frag ++ "?\n"] = _
      rw [hs1]
      simp
    cases r2 with
    | error e =>
      simp only [h2]
      obtain ⟨new, hn, hp⟩ := qmCleanup_sends st2
      refine ⟨"\x15\n" :: (frag ++ "?\n") :: new, by rw [hn, hs2]; simp, ?_⟩
      intro s hs
      rcases List.mem_cons.mp hs with rfl | hs
      · exact Or.inl rfl
      rcases List.mem_cons.mp hs with rfl | hs
      · exact Or.inr (Or.inr rfl)
      rcases hp s hs with h | h
      · exact Or.inl h
      · exact Or.inr (Or.inl h)
    | ok output =>
      simp only [h2]
      rcases h3 : rupSt (sendSt "\x15\n" st2) with ⟨st3, r3⟩
      have hs3 : st3.sends = st.sends ++ ["\x15\n", frag ++ "?\n", "\x15\n"] := by
        have := rupSt_sends (sendSt "\x15\n" st2)
        rw [h3] at this
        rw [this]
        show st2.sends ++ ["\x15\n"] = _
        rw [hs2]
        simp
      cases r3 with
      | error e =>
        simp only [h3]
        obtain ⟨new, hn, hp⟩ := qmCleanup_sends st3
        refine ⟨"\x15\n" :: (frag ++ "?\n") :: "\x15\n" :: new,
          by rw [hn, hs3]; simp, ?_⟩
        intro s hs
        rcases List.mem_cons.mp hs with rfl | hs
        · exact Or.inl rfl
        rcases List.mem_cons.mp hs with rfl | hs
        · exact Or.inr (Or.inr rfl)
        rcases List.mem_cons.mp hs with rfl | hs
        · exact Or.inl rfl
        rcases hp s hs with h | h
        · exact Or.inl h
        · exact Or.inr (Or.inl h)
      | ok out3 =>
        simp only [h3]
        rcases h4 : rupSt (sendSt "\n" st3) with ⟨st4, r4⟩
        have hs4 : st4.sends
            = st.sends ++ ["\x15\n", frag ++ "?\n", "\x15\n", "\n"] := by
          have := rupSt_sends (sendSt "\n" st3)
          rw [h4] at this
          rw [this]
          show st3.sends ++ ["\n"] = _
          rw [hs3]
          simp
        cases r4 with
        | error e =>
          simp only [h4]
          obtain ⟨new, hn, hp⟩ := qmCleanup_sends st4
          refine ⟨"\x15\n" :: (frag ++ "?\n") :: "\x15\n" :: "\n" :: new,
            by rw [hn, hs4]; simp, ?_⟩
          intro s hs
          rcases List.mem_cons.mp hs with rfl | hs
          · exact Or.inl rfl
          rcases List.mem_cons.mp hs with rfl | hs
          · exact Or.inr (Or.inr rfl)
          rcases List.mem_cons.mp hs with rfl | hs
          · exact Or.inl rfl
          rcases List.mem_cons.mp hs with rfl | hs
          · exact Or.inr (Or.inl rfl)
          rcases hp s hs with h | h
          · exact Or.inl h
          · exact Or.inr (Or.inl h)
        | ok out4 =>
          simp only [h4]
          refine ⟨["\x15\n", frag ++ "?\n", "\x15\n", "\n"], by rw [hs4], ?_⟩
          intro s hs
          rcases List.mem_cons.mp hs with rfl | hs
          · exact Or.inl rfl
          rcases List.mem_cons.mp hs with rfl | hs
          · exact Or.inr (Or.inr rfl)
          rcases List.mem_cons.mp hs with rfl | hs
          · exact Or.inl rfl
          rcases List.mem_cons.mp hs with rfl | hs
          · exact Or.inr (Or.inl rfl)
          simp at hs

/-- Shapes of strings the completion engine may send: clear-line,
newline, or a query-mark completion request. -/
def CompSend (s : String) : Prop :=
  s = "\x15\n" ∨ s = "\n" ∨ ∃ x : String, s = x ++ "?\n"

theorem qm_sendsP (frag : String) (st : St) :
    ∃ new, (_get_completions_question_mark frag st).1.sends = st.sends ++ new ∧
      ∀ s ∈ new, CompSend s := by
  obtain ⟨new, hn, hp⟩ := qm_sends frag st
  refine ⟨new, hn, fun s hs => ?_⟩
  rcases hp s hs with h | h | h
  · exact Or.inl h
  · exact Or.inr (Or.inl h)
  · exact Or.inr (Or.inr ⟨frag, h⟩)

theorem compSend_cons_clear {n : List String} (hp : ∀ s ∈ n, CompSend s) :
    ∀ s ∈ ("\x15\n" :: n), CompSend s := by
  intro s hs
  rcases List.mem_cons.mp hs with rfl | hs
  · exact Or.inl rfl
  · exact hp s hs

theorem compSend_append {n m : List String} (h1 : ∀ s ∈ n, CompSend s)
    (h2 : ∀ s ∈ m, CompSend s) : ∀ s ∈ n ++ m, CompSend s := by
  intro s hs
  rcases List.mem_append.mp hs with h | h
  · exact h1 s h
  · exact h2 s h

theorem gc_sends (frag : String) (st : St) :
    ∃ new, (_get_completions frag st).1.sends = st.sends ++ new ∧
      ∀ s ∈ new, CompSend s := by
  rcases h1 : ensure_clean_prompt st with ⟨st1, r1⟩
  have hs1 : st1.sends = st.sends ++ ["\x15\n"] := by
    have := ensure_sends st
    rw [h1] at this
    exact this
  rw [_get_completions]
  cases r1 with
  | error e =>
    simp only [h1]
    refine ⟨["\x15\n"], by rw [hs1], ?_⟩
    intro s hs
    simp at hs
    subst hs
    exact Or.inl rfl
  | ok output =>
    simp only [h1]
    split
    · split
      · split
        next st2 e heq =>
          obtain ⟨n2, hn2, hp2⟩ := qm_sendsP ⟨frag.data.drop 4⟩ st1
          rw [heq] at hn2
          refine ⟨"\x15\n" :: n2, ?_, compSend_cons_clear hp2⟩
          show st2.sends = st.sends ++ ("\x15\n" :: n2)
          rw [show st2.sends = st1.sends ++ n2 from hn2, hs1]
          simp
        next st2 comps heq =>
          obtain ⟨n2, hn2, hp2⟩ := qm_sendsP ⟨frag.data.drop 4⟩ st1
          rw [heq] at hn2
          split
          · refine ⟨"\x15\n" :: n2, ?_, compSend_cons_clear hp2⟩
            show st2.sends = st.sends ++ ("\x15\n" :: n2)
            rw [show st2.sends = st1.sends ++ n2 from hn2, hs1]
            simp
          · split
            next st3 e3 heq3 =>
              obtain ⟨n3, hn3, hp3⟩ := qm_sendsP frag st2
              rw [heq3] at hn3
              refine ⟨"\x15\n" :: (n2 ++ n3), ?_,
                compSend_cons_clear (compSend_append hp2 hp3)⟩
              show st3.sends = st.sends ++ ("\x15\n" :: (n2 ++ n3))
              rw [show st3.sends = st2.sends ++ n3 from hn3,
                show st2.sends = st1.sends ++ n2 from hn2, hs1]
              simp
            next st3 comps2 heq3 =>
              obtain ⟨n3, hn3, hp3⟩ := qm_sendsP frag st2
              rw [heq3] at hn3
              refine ⟨"\x15\n" :: (n2 ++ n3), ?_,
                compSend_cons_clear (compSend_append hp2 hp3)⟩
              show st3.sends = st.sends ++ ("\x15\n" :: (n2 ++ n3))
              rw [show st3.sends = st2.sends ++ n3 from hn3,
                show st2.sends = st1.sends ++ n2 from hn2, hs1]
              simp
      · split
        next st2 e heq =>
          obtain ⟨n2, hn2, hp2⟩ := qm_sendsP frag st1
          rw [heq] at hn2
          refine ⟨"\x15\n" :: n2, ?_, compSend_cons_clear hp2⟩
          show st2.sends = st.sends ++ ("\x15\n" :: n2)
          rw [show st2.sends = st1.sends ++ n2 from hn2, hs1]
          simp
        next st2 comps heq =>
          obtain ⟨n2, hn2, hp2⟩ := qm_sendsP frag st1
          rw [heq] at hn2
          refine ⟨"\x15\n" :: n2, ?_, compSend_cons_clear hp2⟩
          show st2.sends = st.sends ++ ("\x15\n" :: n2)
          rw [show st2.sends = st1.sends ++ n2 from hn2, hs1]
          simp
    · split
      next st2 e heq =>
        obtain ⟨n2, hn2, hp2⟩ := qm_sendsP frag st1
        rw [heq] at hn2
        refine ⟨"\x15\n" :: n2, ?_, compSend_cons_clear hp2⟩
        show st2.sends = st.sends ++ ("\x15\n" :: n2)
        rw [show st2.sends = st1.sends ++ n2 from hn2, hs1]
        simp
      next st2 comps heq =>
        obtain ⟨n2, hn2, hp2⟩ := qm_sendsP frag st1
        rw [heq] at hn2
        refine ⟨"\x15\n" :: n2, ?_, compSend_cons_clear hp2⟩
        show st2.sends = st.sends ++ ("\x15\n" :: n2)
        rw [show st2.sends = st1.sends ++ n2 from hn2, hs1]
        simp

theorem get_completions_sends (text : String) (st : St) :
    ∃ new, (get_completions text st).1.sends = st.sends ++ new ∧
      ∀ s ∈ new, CompSend s := by
  rw [get_completions]
  split
  · exact ⟨[], by simp, by simp⟩
  · rcases h : _get_completions (pyStrip text) st with ⟨st1, comps⟩
    obtain ⟨new, hn, hp⟩ := gc_sends (pyStrip text) st
    rw [h] at hn
    simp only [h]
    exact ⟨new, hn, hp⟩

theorem cli_send_not_CompSend (frag2 : String) :
    ¬ CompSend (("show cli complete-on \"" ++ frag2 ++ "\"") ++ "\n") := by
  intro h
  rcases h with h | h | ⟨x, h⟩
  · have hhd : ((("show cli complete-on \"" ++ frag2 ++ "\"") ++ "\n")).data.head?
        = some 's' := rfl
    rw [h] at hhd
    exact absurd hhd (by decide)
  · have hhd : ((("show cli complete-on \"" ++ frag2 ++ "\"") ++ "\n")).data.head?
        = some 's' := rfl
    rw [h] at hhd
    exact absurd hhd (by decide)
  · have hdata : (("show cli complete-on \"" ++ frag2).data ++ ['"']) ++ ['\n']
        = x.data ++ ['?', '\n'] := congrArg String.data h
    have hrev := congrArg List.reverse hdata
    simp at hrev

/-- The channel script of the configuration-mode fallback scenario. -/
def c6ConfigScript : List ReadOutcome :=
  [.ok "user@host# ", .ok "user@host# ", .ok "sy?\nuser@host# ",
   .ok "user@host# ", .ok "user@host# ", .ok "user@host# ",
   .ok "set sy?\nPossible completions:\n  system  desc\nuser@host# ",
   .ok "user@host# ", .ok "user@host# "]

/-- The channel script under which the question-mark strategy parses no
candidates. -/
def c6qmEmptyScript : List ReadOutcome :=
  [.ok "user@host> ", .ok "user@host> ", .ok "show v?\nsyntax error.\nuser@host> ",
   .ok "user@host> ", .ok "user@host> "]

/-- Claim C6, counterexample.  With the question-mark strategy parsing no
candidates, `get_completions` returns the empty list and its sends contain
no named-query command (`show cli complete-on …`) — the fallback strategy
is never consulted — even though that strategy, had it been invoked on a
well-formed reply, would have produced a non-empty candidate list. -/
theorem claim_C6_counterexample :
    (get_completions "show v" ⟨c6qmEmptyScript, [], []⟩).2 = [] ∧
    (get_completions "show v" ⟨c6qmEmptyScript, [], []⟩).1.sends
      = ["\x15\n", "\x15\n", "show v?\n", "\x15\n", "\n"] ∧
    (_get_completions_cli_command "show v"
        ⟨[.ok "show cli complete-on \"show v\"\nPossible completions:\n  show version  desc\nuser@host> ",
          .ok "user@host> "], [], []⟩).2 = .ok (some ["show"]) := by
  refine ⟨by decide, by decide, by decide⟩

/-- Claim C6 (amended): `get_completions` drives only the question-mark
strategy — every string it sends is a clear-line, a bare newline, or a
query-mark request, and in particular the named-query command of the
(never-invoked) CLI strategy is never sent; the only fallback that exists
is inside configuration mode, where a fragment starting with `set ` is
first tried without that keyword and the full fragment is retried when
the first attempt parses no candidates, as the concrete configuration-mode
run shows. -/
theorem claim_C6_amended :
    (∀ (text : String) (st : St), ∃ new,
       (get_completions text st).1.sends = st.sends ++ new ∧
       ∀ s ∈ new, CompSend s) ∧
    (∀ (text frag2 : String) (st : St),
       (("show cli complete-on \"" ++ frag2 ++ "\"") ++ "\n")
         ∉ (get_completions text st).1.sends.drop st.sends.length) ∧
    ((get_completions "set sy" ⟨c6ConfigScript, [], []⟩).2 = ["set system"] ∧
     (get_completions "set sy" ⟨c6ConfigScript, [], []⟩).1.sends
       = ["\x15\n", "\x15\n", "sy?\n", "\x15\n", "\n", "\x15\n", "set sy?\n",
          "\x15\n", "\n"]) := by
  refine ⟨get_completions_sends, ?_, by decide, by decide⟩
  intro text frag2 st hmem
  obtain ⟨new, hn, hp⟩ := get_completions_sends text st
  rw [hn, List.drop_left] at hmem
  exact cli_send_not_CompSend frag2 (hp _ hmem)

/-- Claim C6 witness: the no-named-query-send conjunct applied to the
concrete empty-result run. -/
theorem claim_C6_witness :
    (("show cli complete-on \"" ++ "show v" ++ "\"") ++ "\n")
      ∉ (get_completions "show v" ⟨c6qmEmptyScript, [], []⟩).1.sends.drop 0 :=
  claim_C6_amended.2.1 "show v" "show v" ⟨c6qmEmptyScript, [], []⟩

/-! ### Claim C7 -/

theorem mem_dedup_aux (l : List String) (acc : List String) (x : String) :
    x ∈ l.foldl (fun acc y => if y ∈ acc then acc else acc ++ [y]) acc ↔
      x ∈ acc ∨ x ∈ l := by
  induction l generalizing acc with
  | nil => simp
  | cons y ys ih =>
    rw [List.foldl_cons, ih]
    by_cases hy : y ∈ acc
    · simp only [hy, if_true]
      constructor
      · rintro (h | h)
        · exact Or.inl h
        · exact Or.inr (by simp [h])
      · rintro (h | h)
        · exact Or.inl h
        · rcases List.mem_cons.mp h with rfl | h
          · exact Or.inl hy
          · exact Or.inr h
    · simp only [hy, if_false, List.mem_append, List.mem_cons, List.mem_singleton]
      tauto

theorem mem_dedupKeepFirst {l : List String} {x : String} :
    x ∈ dedupKeepFirst l ↔ x ∈ l := by
  rw [dedupKeepFirst, mem_dedup_aux]
  simp

theorem nodup_dedup_aux (l : List String) :
    ∀ acc : List String, acc.Nodup →
      (l.foldl (fun acc y => if y ∈ acc then acc else acc ++ [y]) acc).Nodup := by
  induction l with
  | nil => intro acc h; simpa using h
  | cons y ys ih =>
    intro acc h
    rw [List.foldl_cons]
    by_cases hy : y ∈ acc
    · simp only [hy, if_true]
      exact ih acc h
    · simp only [hy, if_false]
      refine ih _ ?_
      simp [List.nodup_append, h, hy]

theorem nodup_dedupKeepFirst (l : List String) : (dedupKeepFirst l).Nodup :=
  nodup_dedup_aux l [] (by simp)

theorem insertByLower_perm (x : String) (l : List String) :
    List.Perm (insertByLower x l) (x :: l) := by
  induction l with
  | nil => exact List.Perm.refl _
  | cons y ys ih =>
    rw [insertByLower]
    split
    · exact List.Perm.refl _
    · exact List.Perm.trans (List.Perm.cons y ih) (List.Perm.swap x y ys)

theorem sortByLower_perm (l : List String) : List.Perm (sortByLower l) l := by
  induction l with
  | nil => exact List.Perm.refl _
  | cons x xs ih =>
    rw [sortByLower]
    exact List.Perm.trans (insertByLower_perm x (sortByLower xs)) (List.Perm.cons x ih)

theorem mem_sortedSetByLower {l : List String} {x : String} :
    x ∈ sortedSetByLower l ↔ x ∈ l := by
  rw [sortedSetByLower, (sortByLower_perm (dedupKeepFirst l)).mem_iff,
    mem_dedupKeepFirst]

theorem nodup_sortedSetByLower (l : List String) : (sortedSetByLower l).Nodup :=
  ((sortByLower_perm (dedupKeepFirst l)).nodup_iff).mpr (nodup_dedupKeepFirst l)

theorem ltCharList_asymm :
    ∀ (l1 l2 : List Char), ltCharList l1 l2 = true → ltCharList l2 l1 = false := by
  intro l1
  induction l1 with
  | nil =>
    intro l2 h
    cases l2 with
    | nil => simp [ltCharList] at h
    | cons b bs => rfl
  | cons a as ih =>
    intro l2 h
    cases l2 with
    | nil => simp [ltCharList] at h
    | cons b bs =>
      by_cases hab : a < b
      · simp [ltCharList, hab, lt_asymm hab]
      · by_cases hba : b < a
        · simp [ltCharList, hab, hba] at h
        · simp only [ltCharList, hab, hba, if_false] at h ⊢
          exact ih bs h

theorem ltCharList_trans :
    ∀ (l1 l2 l3 : List Char), ltCharList l1 l2 = true → ltCharList l2 l3 = true →
      ltCharList l1 l3 = true := by
  intro l1
  induction l1 with
  | nil =>
    intro l2 l3 h12 h23
    cases l2 with
    | nil => simp [ltCharList] at h12
    | cons b bs =>
      cases l3 with
      | nil => simp [ltCharList] at h23
      | cons c cs => rfl
  | cons a as ih =>
    intro l2 l3 h12 h23
    cases l2 with
    | nil => simp [ltCharList] at h12
    | cons b bs =>
      cases l3 with
      | nil => simp [ltCharList] at h23
      | cons c cs =>
        by_cases hab : a < b
        · by_cases hbc : b < c
          · simp [ltCharList, lt_trans hab hbc]
          · by_cases hcb : c < b
            · simp [ltCharList, hbc, hcb] at h23
            · have hbce : b = c := le_antisymm (le_of_not_lt hcb) (le_of_not_lt hbc)
              subst hbce
              simp [ltCharList, hab]
        · by_cases hba : b < a
          · simp [ltCharList, hab, hba] at h12
          · have habe : a = b := le_antisymm (le_of_not_lt hba) (le_of_not_lt hab)
            subst habe
            simp only [ltCharList, hab, hba, if_false] at h12
            by_cases hac : a < c
            · simp [ltCharList, hac]
            · by_cases hca : c < a
              · simp [ltCharList, hac, hca] at h23
              · simp only [ltCharList, hac, hca, if_false] at h23 ⊢
                exact ih bs cs h12 h23

theorem leLower_total (a b : String) : leLower a b = true ∨ leLower b a = true := by
  by_cases h : ltCharList (pyLower b).data (pyLower a).data = true
  · right
    have := ltCharList_asymm _ _ h
    simp [leLower, this]
  · left
    simp only [Bool.not_eq_true] at h
    simp [leLower, h]

theorem leLower_trans {a b c : String} (h1 : leLower a b = true)
    (h2 : leLower b c = true) : leLower a c = true := by
  rw [leLower, Bool.not_eq_true'] at h1 h2 ⊢
  by_cases hca : ltCharList (pyLower c).data (pyLower a).data = true
  · exfalso
    by_cases hcb : ltCharList (pyLower c).data (pyLower b).data = true
    · rw [h2] at hcb
      exact Bool.false_ne_true hcb
    · by_cases hbc : ltCharList (pyLower b).data (pyLower c).data = true
      · have := ltCharList_trans _ _ _ hbc hca
        rw [h1] at this
        exact Bool.false_ne_true this
      · -- incomparable means equal lists
        have hble : ∀ (u v : List Char), ltCharList u v = false →
            ltCharList v u = false → u = v := by
          intro u
          induction u with
          | nil =>
            intro v h1 h2
            cases v with
            | nil => rfl
            | cons c cs => simp [ltCharList] at h1
          | cons x xs ihu =>
            intro v h1 h2
            cases v with
            | nil => simp [ltCharList] at h2
            | cons y ys =>
              by_cases hxy : x < y
              · simp [ltCharList, hxy] at h1
              · by_cases hyx : y < x
                · simp [ltCharList, hyx] at h2
                · have hxye : x = y := le_antisymm (le_of_not_lt hyx) (le_of_not_lt hxy)
                  subst hxye
                  simp only [ltCharList, hxy, hyx, if_false] at h1 h2
                  rw [ihu ys h1 h2]
        simp only [Bool.not_eq_true] at hcb hbc
        have := hble _ _ hbc hcb
        rw [this] at h1
        rw [h1] at hca
        exact Bool.false_ne_true hca
  · simp only [Bool.not_eq_true] at hca
    exact hca

theorem mem_insertByLower {x z : String} {l : List String} :
    z ∈ insertByLower x l ↔ z = x ∨ z ∈ l := by
  rw [(insertByLower_perm x l).mem_iff, List.mem_cons]

theorem pairwise_insertByLower {x : String} {l : List String}
    (h : l.Pairwise (fun a b => leLower a b = true)) :
    (insertByLower x l).Pairwise (fun a b => leLower a b = true) := by
  induction l with
  | nil => simp [insertByLower]
  | cons y ys ih =>
    rw [List.pairwise_cons] at h
    obtain ⟨hy, hys⟩ := h
    rw [insertByLower]
    split
    next hxy =>
      rw [List.pairwise_cons]
      refine ⟨?_, List.pairwise_cons.mpr ⟨hy, hys⟩⟩
      intro z hz
      rcases List.mem_cons.mp hz with rfl | hz
      · exact hxy
      · exact leLower_trans hxy (hy z hz)
    next hxy =>
      rw [List.pairwise_cons]
      refine ⟨?_, ih hys⟩
      intro z hz
      rcases mem_insertByLower.mp hz with rfl | hz
      · rcases leLower_total z y with h | h
        · exact absurd h hxy
        · exact h
      · exact hy z hz

theorem pairwise_sortByLower (l : List String) :
    (sortByLower l).Pairwise (fun a b => leLower a b = true) := by
  induction l with
  | nil => simp [sortByLower]
  | cons x xs ih => exact pairwise_insertByLower ih

theorem pairwise_sortedSetByLower (l : List String) :
    (sortedSetByLower l).Pairwise (fun a b => leLower a b = true) :=
  pairwise_sortByLower (dedupKeepFirst l)

theorem mem_filterMatches {text c : String} {comps : List String} :
    c ∈ filterMatches text comps ↔
      (∃ raw ∈ comps, pyStrip raw = c) ∧ pyStartsWith c text = true ∧
        c ≠ text := by
  rw [filterMatches, List.mem_filterMap]
  constructor
  · rintro ⟨raw, hraw, hf⟩
    dsimp only at hf
    split at hf
    next hcond =>
      rw [Option.some.injEq] at hf
      subst hf
      rw [Bool.and_eq_true, Bool.not_eq_true', beq_eq_false_iff_ne] at hcond
      exact ⟨⟨raw, hraw, rfl⟩, hcond.1, hcond.2⟩
    next => exact absurd hf (by simp)
  · rintro ⟨⟨raw, hraw, rfl⟩, hsw, hne⟩
    refine ⟨raw, hraw, ?_⟩
    dsimp only
    rw [if_pos]
    rw [Bool.and_eq_true, Bool.not_eq_true', beq_eq_false_iff_ne]
    exact ⟨hsw, hne⟩

/-- The channel script of the trailing-whitespace-fragment scenario. -/
def c7Script : List ReadOutcome :=
  [.ok "user@host> ", .ok "user@host> ",
   .ok "show?\nPossible completions:\n  showx  does things\nuser@host> ",
   .ok "user@host> ", .ok "user@host> "]

/-- Claim C7, counterexample.  For the fragment `show ` (with trailing
space) the returned list contains `showx`, which is not a textual
extension of that fragment: the source strips the fragment before
filtering, so candidates are only guaranteed to extend the trimmed
fragment. -/
theorem claim_C7_counterexample :
    (get_completions "show " ⟨c7Script, [], []⟩).2 = ["showx"] ∧
    pyStartsWith "showx" "show " = false := by
  refine ⟨by decide, by decide⟩

/-- Claim C7 (amended): for every trimmed nonempty fragment and every raw
candidate list, the list `get_completions` builds contains exactly the
trimmed candidates that strictly extend the fragment, without duplicates,
ordered by the case-insensitive key; `get_completions` applies exactly
this filter to the strategy result, and on the concrete raw candidates
`show version`, `show vlan`, `showx` with fragment `show v` the result is
exactly `[show version, show vlan]`. -/
theorem claim_C7_amended :
    ∀ (text : String) (comps : List String),
      pyStrip text = text → text ≠ "" →
      (∀ c, c ∈ sortedSetByLower (filterMatches text comps) ↔
        ((∃ raw ∈ comps, pyStrip raw = c) ∧ pyStartsWith c text = true ∧
          c ≠ text)) ∧
      (sortedSetByLower (filterMatches text comps)).Nodup ∧
      (sortedSetByLower (filterMatches text comps)).Pairwise
        (fun a b => leLower a b = true) ∧
      (∀ st : St, get_completions text st
         = ((_get_completions text st).1,
            sortedSetByLower (filterMatches text (_get_completions text st).2))) ∧
      sortedSetByLower
          (filterMatches "show v" ["show version", "show vlan", "showx"])
        = ["show version", "show vlan"] := by
  intro text comps hstrip hne
  refine ⟨?_, nodup_sortedSetByLower _, pairwise_sortedSetByLower _, ?_, by decide⟩
  · intro c
    rw [mem_sortedSetByLower, mem_filterMatches]
  · intro st
    rw [get_completions, if_neg (by rw [hstrip]; exact hne), hstrip]

/-- Claim C7 witness: the membership characterization applied at the
concrete fragment `show v`, candidate list and candidate `show version`. -/
theorem claim_C7_witness :
    ("show version" ∈ sortedSetByLower
        (filterMatches "show v" ["show version", "show vlan", "showx"]) ↔
      ((∃ raw ∈ ["show version", "show vlan", "showx"],
          pyStrip raw = "show version") ∧
        pyStartsWith "show version" "show v" = true ∧
        "show version" ≠ "show v")) :=
  (claim_C7_amended "show v" ["show version", "show vlan", "showx"]
    (by decide) (by decide)).1 "show version"

/-! ### Claim C8 -/

/-- Claim C8, counterexample.  An exception raised during the strategy's
very first step (the clean-prompt re-sync that opens the question-mark
strategy, raised here as a reader timeout) is caught and the empty list is
returned, but the session is not re-synchronized: the only send performed
is the clear-line that preceded the failing read, with no subsequent
clear-line/newline pair. -/
theorem claim_C8_counterexample :
    get_completions "show" ⟨[.timeout "x"], [], []⟩
      = (⟨[], ["\x15\n"], []⟩, []) := by decide

/-- Claim C8 (amended): every exception during completion is caught and
an empty list is returned instead of propagating, but re-synchronization
is not guaranteed: an exception at the coordinator's initial clean-prompt
step yields `[]` with no re-sync sends at all; an exception in the
question-mark strategy body is followed by the clear-line/newline re-sync
when those reads succeed; and if the re-sync itself fails, the empty list
is still returned with the re-sync left incomplete. -/
theorem claim_C8_amended :
    (∀ (frag : String) (st st1 : St) (e : Err),
       ensure_clean_prompt st = (st1, .error e) →
       _get_completions frag st = (st1, []) ∧
       st1.sends = st.sends ++ ["\x15\n"]) ∧
    (∀ (frag p0 p sofar c1 c2 : String) (rest : List ReadOutcome)
        (sends sink : List String),
       (pyLastLine p0).data.contains '#' = false →
       _get_completions frag
           ⟨.ok p0 :: .ok p :: .timeout sofar :: .ok c1 :: .ok c2 :: rest,
            sends, sink⟩
         = (⟨rest, sends ++ ["\x15\n", "\x15\n", frag ++ "?\n", "\x15\n", "\n"],
             sink⟩, [])) ∧
    (∀ (frag p0 p sofar : String) (sends sink : List String),
       (pyLastLine p0).data.contains '#' = false →
       _get_completions frag ⟨[.ok p0, .ok p, .timeout sofar], sends, sink⟩
         = (⟨[], sends ++ ["\x15\n", "\x15\n", frag ++ "?\n", "\x15\n"], sink⟩,
            [])) := by
  refine ⟨?_, ?_, ?_⟩
  · intro frag st st1 e h
    have hs : st1.sends = st.sends ++ ["\x15\n"] := by
      have := ensure_sends st
      rw [h] at this
      exact this
    refine ⟨?_, hs⟩
    rw [_get_completions]
    simp only [h]
  · intro frag p0 p sofar c1 c2 rest sends sink hcfg
    have hcfg' : ¬ '#' ∈ (pyLastLine p0).data := by simpa using hcfg
    simp [_get_completions, _get_completions_question_mark, ensure_clean_prompt,
      rupSt, sendSt, qmCleanup, hcfg']
  · intro frag p0 p sofar sends sink hcfg
    have hcfg' : ¬ '#' ∈ (pyLastLine p0).data := by simpa using hcfg
    simp [_get_completions, _get_completions_question_mark, ensure_clean_prompt,
      rupSt, sendSt, qmCleanup, hcfg']

/-- Claim C8 witness: the coordinator-level conjunct applied to a concrete
one-entry script whose only read raises a non-timeout exception. -/
theorem claim_C8_witness :
    _get_completions "show" ⟨[.err], [], []⟩ = (⟨[], ["\x15\n"], []⟩, []) ∧
    (St.mk [] ["\x15\n"] []).sends = ([] : List String) ++ ["\x15\n"] :=
  claim_C8_amended.1 "show" ⟨[.err], [], []⟩ ⟨[], ["\x15\n"], []⟩ .err (by decide)

/-! ### Claim C9

The session lifecycle (`connect`, lines 44-121; `close`, 290-303;
`interrupt`, 305-315) is embedded as a transition system on a session
record.  `connect` may raise at three places the transport can fail:
during the login handshake (before the connected flag is set, line 92),
at `invoke_shell` (after the flag is set, before the channel exists,
line 108), or during the initialization reads (after the channel exists,
lines 110-121); `ConnectOutcome` names which point, if any, raised.  The
ghost list `openChans` tracks the shell channels currently alive, tagged
with the target host; `interrupt`, `exec_command` and `get_completions`
do not modify any of these fields. -/

/-- Where, if anywhere, a `connect` call raised. -/
inductive ConnectOutcome where
  | ok
  | failAuth
  | failShell
  | failInit
deriving DecidableEq, Repr

/-- Session state: connected flag, transport client handle, owned shell
channel (id and target host), fresh-id counter, and the ghost list of
currently open shell channels. -/
structure Sess where
  connected : Bool
  client : Bool
  shell : Option (Nat × String)
  nextId : Nat
  openChans : List (Nat × String)
deriving DecidableEq, Repr

/-- The freshly constructed session (`__init__`, lines 26-42). -/
def initSess : Sess := ⟨false, false, none, 0, []⟩

/-- Model of `close` (lines 290-303): clear the flag, close the shell
channel and the client (which closes every channel it owns), null both. -/
def closeS (s : Sess) : Sess :=
  { s with connected := false, shell := none, client := false, openChans := [] }

/-- The `invoke_shell` step (line 108): open one fresh channel. -/
def openShellS (host : String) (s : Sess) : Sess :=
  { s with shell := some (s.nextId, host),
           openChans := s.openChans ++ [(s.nextId, host)],
           nextId := s.nextId + 1 }

/-- Model of `connect` (lines 44-121): close any prior client first, then
create the client, mark connected (line 100), and open the shell channel
(line 108) — unless the indicated fault point raises first. -/
def connectS (host : String) (out : ConnectOutcome) (s : Sess) : Sess :=
  let s1 := if s.client then closeS s else s
  let s2 : Sess := { s1 with client := true }
  match out with
  | .failAuth => s2
  | .failShell => { s2 with connected := true }
  | .ok => openShellS host { s2 with connected := true }
  | .failInit => openShellS host { s2 with connected := true }

/-- States reachable through the public operations, with `connect` allowed
to raise anywhere (`exec_command`, `get_completions` and `interrupt` do
not change these fields and need no transition). -/
inductive ReachAll : Sess → Prop where
  | init : ReachAll initSess
  | connect (host : String) (out : ConnectOutcome) (s : Sess) :
      ReachAll s → ReachAll (connectS host out s)
  | close (s : Sess) : ReachAll s → ReachAll (closeS s)

/-- States reachable when no `connect` raises between marking the session
connected and opening the shell channel. -/
inductive Reach : Sess → Prop where
  | init : Reach initSess
  | connect (host : String) (out : ConnectOutcome) (s : Sess) :
      out ≠ ConnectOutcome.failShell → Reach s → Reach (connectS host out s)
  | close (s : Sess) : Reach s → Reach (closeS s)

/-- Strengthened state invariant used for the induction. -/
def SessInv (s : Sess) : Prop :=
  (s.connected = true ↔ s.shell.isSome = true) ∧
  s.openChans.length ≤ 1 ∧
  (∀ c, s.shell = some c → s.openChans = [c]) ∧
  (s.shell = none → s.openChans = []) ∧
  (s.client = false → s.shell = none)

theorem sessInv_close (s : Sess) : SessInv (closeS s) := by
  refine ⟨by simp [closeS], by simp [closeS], ?_, by simp [closeS], ?_⟩
  · intro c hc
    simp [closeS] at hc
  · intro _
    simp [closeS]

theorem sessInv_of_reach {s : Sess} (h : Reach s) : SessInv s := by
  induction h with
  | init =>
    refine ⟨by simp [initSess], by simp [initSess], ?_, by simp [initSess], ?_⟩
    · intro c hc
      simp [initSess] at hc
    · intro _
      simp [initSess]
  | close s _ _ => exact sessInv_close s
  | connect host out s hout _ ih =>
    have hb : (if s.client then closeS s else s).shell = none ∧
        (if s.client then closeS s else s).openChans = [] ∧
        (if s.client then closeS s else s).connected = false := by
      by_cases hc : s.client
      · simp only [hc, if_true]
        exact ⟨by simp [closeS], by simp [closeS], by simp [closeS]⟩
      · simp only [hc, if_false]
        have hcf : s.client = false := by simpa using hc
        have hsh : s.shell = none := ih.2.2.2.2 hcf
        refine ⟨hsh, ih.2.2.2.1 hsh, ?_⟩
        by_cases hcc : s.connected = true
        · have := ih.1.mp hcc
          rw [hsh] at this
          simp at this
        · simpa using hcc
    obtain ⟨hbShell, hbOpen, hbConn⟩ := hb
    cases out with
    | failShell => exact absurd rfl hout
    | failAuth =>
      refine ⟨by simp [connectS, hbConn, hbShell], by simp [connectS, hbOpen],
        ?_, by simp [connectS, hbOpen], ?_⟩
      · intro c hc
        simp [connectS, hbShell] at hc
      · intro h
        simp [connectS] at h
    | ok =>
      refine ⟨by simp [connectS, openShellS], by simp [connectS, openShellS, hbOpen],
        ?_, ?_, ?_⟩
      · intro c hc
        simp [connectS, openShellS] at hc
        simp [connectS, openShellS, hbOpen, ← hc]
      · intro h
        simp [connectS, openShellS] at h
      · intro h
        simp [connectS, openShellS] at h
    | failInit =>
      refine ⟨by simp [connectS, openShellS], by simp [connectS, openShellS, hbOpen],
        ?_, ?_, ?_⟩
      · intro c hc
        simp [connectS, openShellS] at hc
        simp [connectS, openShellS, hbOpen, ← hc]
      · intro h
        simp [connectS, openShellS] at h
      · intro h
        simp [connectS, openShellS] at h

/-- Claim C9, counterexample.  A `connect` whose `invoke_shell` raises
(after line 100 set the connected flag, before line 108 opened the shell
channel) leaves a reachable state in which the connection flag is true but
the shell channel is null, refuting the claimed equivalence. -/
theorem claim_C9_counterexample :
    ReachAll (connectS "hostA" .failShell initSess) ∧
    (connectS "hostA" .failShell initSess).connected = true ∧
    (connectS "hostA" .failShell initSess).shell = none :=
  ⟨ReachAll.connect "hostA" .failShell initSess ReachAll.init, by decide, by decide⟩

/-- Claim C9 (amended): in every state reachable through the public
operations in which no `connect` raises between marking the session
connected and opening the shell channel, the shell channel is non-null iff
the connection flag is true and at most one channel is alive; `connect`
on an already-connected session closes the prior channel first, so two
successive connects leave exactly one open channel targeting the second
host; and `close` is idempotent and always leaves the flag false and the
channel null.  (If `invoke_shell` itself raises, the flag can be true with
a null channel, per the counterexample.) -/
theorem claim_C9_amended :
    (∀ s : Sess, Reach s →
       ((s.connected = true ↔ s.shell.isSome = true) ∧
        s.openChans.length ≤ 1 ∧
        (∀ c, s.shell = some c → s.openChans = [c]))) ∧
    (∀ (hA hB : String) (s : Sess),
       (connectS hB .ok (connectS hA .ok s)).openChans
         = [((connectS hA .ok s).nextId, hB)] ∧
       (connectS hB .ok (connectS hA .ok s)).shell
         = some ((connectS hA .ok s).nextId, hB)) ∧
    (∀ s : Sess, closeS (closeS s) = closeS s ∧
       (closeS s).connected = false ∧ (closeS s).shell = none) := by
  refine ⟨?_, ?_, ?_⟩
  · intro s h
    obtain ⟨h1, h2, h3, _, _⟩ := sessInv_of_reach h
    exact ⟨h1, h2, h3⟩
  · intro hA hB s
    constructor
    · simp [connectS, openShellS, closeS]
    · simp [connectS, openShellS, closeS]
  · intro s
    refine ⟨rfl, rfl, rfl⟩

/-- Claim C9 witness: the invariant applied to the concrete state reached
by connecting to `hostA` and then to `hostB`. -/
theorem claim_C9_witness :
    ((connectS "hostB" .ok (connectS "hostA" .ok initSess)).connected = true ↔
      (connectS "hostB" .ok (connectS "hostA" .ok initSess)).shell.isSome = true) ∧
    (connectS "hostB" .ok (connectS "hostA" .ok initSess)).openChans.length ≤ 1 ∧
    (∀ c, (connectS "hostB" .ok (connectS "hostA" .ok initSess)).shell = some c →
      (connectS "hostB" .ok (connectS "hostA" .ok initSess)).openChans = [c]) :=
  claim_C9_amended.1 (connectS "hostB" .ok (connectS "hostA" .ok initSess))
    (Reach.connect "hostB" .ok _ (by decide)
      (Reach.connect "hostA" .ok _ (by decide) Reach.init))
